import Mathlib

/-!
# Verification of the ducktape text-to-command pipeline

A shallow embedding of the interpretation pipeline of the `ducktape` CLI
(version 0.16.5): the security validators, the enhancement chain, the
natural-language synthesizer's control flow, the tokenizer front end and the
command dispatcher, together with theorems settling the specification claims.

Modelling conventions:
* Rust strings are modelled as `List Char` (`Str`).  Rust `str::len` counts
  UTF-8 bytes, modelled by `rustByteLen`.
* The regex character class `\d` is modelled as the ASCII digits (Rust's
  `str::parse` accepts only ASCII digits, so a captured group containing a
  non-ASCII digit never yields an accepted numeric value; theorems about
  numeric flag bounds are stated for ASCII texts).
* The regex class `\s` and `str::trim` use Rust's White_Space character set.
* Fallible Rust functions returning `anyhow::Result` are modelled with
  `Except Str · `; the error messages are the source's format strings.
* The external effects of `parse_natural_language` (the LRU cache, the
  HTTP call to the provider) are passed in explicitly: the cache as a lookup
  function and the provider call's outcome as an `Except` value.
-/

set_option maxRecDepth 10000

namespace Ducktape

/-- Rust strings, modelled as their character sequences. -/
abbrev Str := List Char

/-- Coerce a Lean string literal to the model's string type. -/
def str (s : String) : Str := s.data

/-- Rust `str::contains(&str)`: substring test. -/
def rustContains : Str → Str → Bool
  | [], pat => pat.isEmpty
  | hay@(_ :: t), pat => pat.isPrefixOf hay || rustContains t pat

/-- Rust `str::starts_with(&str)`. -/
def rustStartsWith (s pat : Str) : Bool := pat.isPrefixOf s

/-- Rust `str::ends_with(&str)`. -/
def rustEndsWith (s pat : Str) : Bool := pat.isSuffixOf s

/-- Rust `char::is_whitespace`: the Unicode White_Space property. -/
def rustIsWhitespace (c : Char) : Bool :=
  c = ' ' || c = '\t' || c = '\n' || c.val = 0x0B || c.val = 0x0C || c = '\r'
    || c.val = 0x85 || c.val = 0xA0 || c.val = 0x1680
    || (0x2000 ≤ c.val && c.val ≤ 0x200A)
    || c.val = 0x2028 || c.val = 0x2029 || c.val = 0x202F || c.val = 0x205F
    || c.val = 0x3000

/-- Rust `char::is_control`: the Unicode Cc category. -/
def rustIsControl (c : Char) : Bool :=
  c.val < 0x20 || (0x7F ≤ c.val && c.val ≤ 0x9F)

/-- ASCII decimal digit (the model's reading of the regex class `\d`). -/
def isDigitC (c : Char) : Bool := '0' ≤ c && c ≤ '9'

/-- Rust `str::trim`: drop leading and trailing whitespace. -/
def rustTrim (s : Str) : Str :=
  ((s.dropWhile rustIsWhitespace).reverse.dropWhile rustIsWhitespace).reverse

/-- Number of UTF-8 bytes a character occupies (Rust `char::len_utf8`). -/
def charUtf8Len (c : Char) : Nat :=
  if c.val < 0x80 then 1 else if c.val < 0x800 then 2
  else if c.val < 0x10000 then 3 else 4

/-- Rust `str::len`: the UTF-8 byte length. -/
def rustByteLen (s : Str) : Nat := (s.map charUtf8Len).sum

/-- Numeric value of a (previously captured) ASCII digit string. -/
def digitsToNat (s : Str) : Nat :=
  s.foldl (fun n c => 10 * n + (c.toNat - '0'.toNat)) 0

/-- Rust `str::parse::<u32>` on a captured `\d+` group: succeeds iff the value
fits in `u32`. -/
def parseU32 (s : Str) : Option Nat :=
  if s ≠ [] && s.all isDigitC && digitsToNat s ≤ 4294967295 then
    some (digitsToNat s)
  else none

/-- Rust `str::parse::<i32>` on a captured `\d+` group: succeeds iff the value
fits in `i32`. -/
def parseI32 (s : Str) : Option Nat :=
  if s ≠ [] && s.all isDigitC && digitsToNat s ≤ 2147483647 then
    some (digitsToNat s)
  else none

/-- Split off everything after the first occurrence of `pat` in `s`
(Rust `str::find` followed by indexing past the pattern).  `none` when the
pattern does not occur. -/
def afterFirst (pat : Str) : Str → Option Str
  | [] => if pat = [] then some [] else none
  | c :: rest =>
    if pat.isPrefixOf (c :: rest) then some ((c :: rest).drop pat.length)
    else afterFirst pat rest

/-- First match of the regex `--interval (\d+)` (equally `--count (\d+)` when
`pat` is chosen so): the leftmost position where `pat` is followed by at least
one digit; the capture is the maximal digit run there. -/
def regexFlagCapture (pat : Str) : Str → Option Str
  | [] => none
  | c :: rest =>
    if pat.isPrefixOf (c :: rest) &&
        (((c :: rest).drop pat.length).headD 'x' |> isDigitC) then
      some (((c :: rest).drop pat.length).takeWhile isDigitC)
    else regexFlagCapture pat rest

/-- `validate_calendar_command` from `src/parser/natural_language/mod.rs`
(the copy used by the grok pipeline).  Rejects shell metacharacters in any
text; checks `--interval` (via the regex `--interval (\d+)` and an `i32`
parse) only inside texts containing `calendar create`; has no `--count`
check. -/
def validate_calendar_command_nl (command : Str) : Except Str Unit :=
  if rustContains command (str "&&") || rustContains command (str "|")
      || rustContains command (str ";") || rustContains command (str "`") then
    .error (str "Generated command contains potentially unsafe characters")
  else if rustContains command (str "calendar create") then
    if rustContains command (str "--interval") then
      match regexFlagCapture (str "--interval ") command with
      | some ds =>
        match parseI32 ds with
        | some n =>
          if n > 100 then .error (str "Unreasonable interval value")
          else .ok ()
        | none => .ok ()
      | none => .ok ()
    else .ok ()
  else .ok ()

/-- The numeric capture of `validate_calendar_command` from
`src/parser/openai/utils.rs`: the text after the first occurrence of the flag
name, through the regex `^\s*(\d+)`. -/
def openaiFlagCapture (flag : Str) (command : Str) : Option Str :=
  match afterFirst flag command with
  | none => none
  | some rest =>
    let ds := (rest.dropWhile rustIsWhitespace).takeWhile isDigitC
    if ds = [] then none else some ds

/-- `validate_calendar_command` from `src/parser/openai/utils.rs`.  Rejects
shell metacharacters; bounds `--interval` at 100 and `--count` at 500 (both
through a `u32` parse of the digits following the first occurrence of the
flag). -/
def validate_calendar_command_openai (command : Str) : Except Str Unit :=
  if rustContains command (str "&&") || rustContains command (str "|")
      || rustContains command (str ";") || rustContains command (str "`") then
    .error (str "Generated command contains potentially unsafe characters")
  else
    let intervalBad :=
      match openaiFlagCapture (str "--interval") command with
      | some ds => match parseU32 ds with
        | some n => decide (n > 100)
        | none => false
      | none => false
    if intervalBad then .error (str "Unreasonably large interval value")
    else
      let countBad :=
        match openaiFlagCapture (str "--count") command with
        | some ds => match parseU32 ds with
          | some n => decide (n > 500)
          | none => false
        | none => false
      if countBad then .error (str "Unreasonably large count value")
      else .ok ()

/-- An `Except` value that carries an error. -/
def isErr {ε α : Type} : Except ε α → Bool
  | .error _ => true
  | .ok _ => false

/-- Rust `str::to_lowercase`, modelled as per-character ASCII lowering. -/
def rustToLower (s : Str) : Str := s.map Char.toLower

/-- Worker for `rustReplace`: a positive first argument skips characters
already consumed by a replaced occurrence. -/
def rustReplaceGo (pat rep : Str) : Nat → Str → Str
  | n + 1, _ :: t => rustReplaceGo pat rep n t
  | _, [] => []
  | 0, c :: t =>
    if pat ≠ [] ∧ pat.isPrefixOf (c :: t) = true then
      rep ++ rustReplaceGo pat rep (pat.length - 1) t
    else c :: rustReplaceGo pat rep 0 t

/-- Rust `str::replace(pat, rep)`: replace every non-overlapping occurrence,
left to right.  (The sources never call it with an empty pattern; the model
leaves the string unchanged in that case.) -/
def rustReplace (s pat rep : Str) : Str := rustReplaceGo pat rep 0 s

/-- Worker for `rustSplit`, with the same skip convention. -/
def rustSplitGo (pat : Str) : Nat → Str → List Str
  | n + 1, _ :: t => rustSplitGo pat n t
  | _, [] => [[]]
  | 0, c :: t =>
    if pat ≠ [] ∧ pat.isPrefixOf (c :: t) = true then
      [] :: rustSplitGo pat (pat.length - 1) t
    else
      match rustSplitGo pat 0 t with
      | [] => [[c]]
      | seg :: rest => (c :: seg) :: rest

/-- Rust `str::split(&str)`: the segments between the non-overlapping,
left-to-right occurrences of the pattern. -/
def rustSplit (s pat : Str) : List Str := rustSplitGo pat 0 s

/-- Index of the first occurrence of `pat` in the string
(Rust `str::find(&str)`). -/
def findSubIdx : Str → Str → Option Nat
  | [], pat => if pat = [] then some 0 else none
  | c :: t, pat =>
    if pat.isPrefixOf (c :: t) then some 0
    else (findSubIdx t pat).map (· + 1)

/-! ## The enhancement chain (`src/parser/natural_language/grok/utils.rs`) -/

/-- The unit captured by the recurrence regex `every (\d+) (day|week|month|year)s?`. -/
inductive RecUnit | day | week | month | year
deriving DecidableEq

/-- The `--repeat` frequency word the recurrence stage appends for a unit. -/
def recFreq : RecUnit → Str
  | .day => str "daily"
  | .week => str "weekly"
  | .month => str "monthly"
  | .year => str "yearly"

/-- The unit words of the recurrence regex's second capture group. -/
def recUnitStr : RecUnit → Str
  | .day => str "day"
  | .week => str "week"
  | .month => str "month"
  | .year => str "year"

/-- The alternation `(day|week|month|year)` of the recurrence regex, tried
left to right against the text after the interval's space. -/
def recUnitBranch (ds : Str) (rest2 : Str) : Option (Str × RecUnit) :=
  if (str "day").isPrefixOf rest2 then some (ds, .day)
  else if (str "week").isPrefixOf rest2 then some (ds, .week)
  else if (str "month").isPrefixOf rest2 then some (ds, .month)
  else if (str "year").isPrefixOf rest2 then some (ds, .year)
  else none

/-- Match of `every (\d+) (day|week|month|year)s?` anchored at the start of
`l`: the interval digits (maximal ASCII-digit run) and the unit. -/
def matchEveryAt (l : Str) : Option (Str × RecUnit) :=
  if (str "every ").isPrefixOf l then
    let rest := l.drop 6
    let ds := rest.takeWhile isDigitC
    if ds.isEmpty then none
    else match rest.dropWhile isDigitC with
      | ' ' :: rest2 => recUnitBranch ds rest2
      | _ => none
  else none

/-- Leftmost match of the recurrence interval regex
`every (\d+) (day|week|month|year)s?` (`re_interval.captures(command)`). -/
def regexEveryNum : Str → Option (Str × RecUnit)
  | [] => none
  | l@(_ :: t) =>
    match matchEveryAt l with
    | some r => some r
    | none => regexEveryNum t

/-- `enhance_recurrence_command`: injects `--repeat`/`--interval` flags for
recurrence phrases found in the command text.  (The source's guards
`!interval.is_empty() && !unit.is_empty()` always hold once the regex has
captured, and are folded away.) -/
def recLiteralStage (command : Str) : Str :=
  if rustContains command (str " every day")
      || rustContains command (str " daily") then
    if !(rustContains command (str "--repeat")) then
      rustTrim command ++ str " --repeat daily"
    else command
  else if rustContains command (str " every week")
      || rustContains command (str " weekly") then
    if !(rustContains command (str "--repeat")) then
      rustTrim command ++ str " --repeat weekly"
    else command
  else if rustContains command (str " every month")
      || rustContains command (str " monthly") then
    if !(rustContains command (str "--repeat")) then
      rustTrim command ++ str " --repeat monthly"
    else command
  else if rustContains command (str " every year")
      || rustContains command (str " yearly")
      || rustContains command (str " annually") then
    if !(rustContains command (str "--repeat")) then
      rustTrim command ++ str " --repeat yearly"
    else command
  else command

/-- Append `--repeat <freq>` when absent (the frequency half of the
`every X days` handling). -/
def recFreqStep (e1 : Str) (u : RecUnit) : Str :=
  if !(rustContains e1 (str "--repeat")) then
    rustTrim e1 ++ str " --repeat " ++ recFreq u
  else e1

/-- Append `--interval <n>` when absent (the interval half). -/
def recIntervalStep (e2 : Str) (ds : Str) : Str :=
  if !(rustContains e2 (str "--interval")) then
    rustTrim e2 ++ str " --interval " ++ ds
  else e2

/-- The `every X days` part of `enhance_recurrence_command`: append the
repeat-frequency and interval flags, each only when absent, using the regex
captures from the original command. -/
def recRegexStage (command e1 : Str) : Str :=
  match regexEveryNum command with
  | none => e1
  | some (ds, u) => recIntervalStep (recFreqStep e1 u) ds

def enhance_recurrence_command (command : Str) : Str :=
  if !(rustContains command (str "calendar create")) then command
  else recRegexStage command (recLiteralStage command)

/-- The zoom keyword list of `enhance_command_with_zoom`. -/
def zoom_keywords : List Str :=
  [str "zoom", str "video call", str "video meeting", str "virtual meeting",
   str "online meeting", str "teams meeting", str "google meet"]

/-- `enhance_command_with_zoom`: appends `--zoom` when the original input
mentions a meeting-link keyword. -/
def enhance_command_with_zoom (command input : Str) : Str :=
  if !(rustContains command (str "calendar create"))
      || rustContains command (str "--zoom") then command
  else
    let inputLower := rustToLower input
    if zoom_keywords.any (fun k => rustContains inputLower k) then
      rustTrim command ++ str " --zoom"
    else command

/-! ## Email and contact extraction -/

/-- The class `[a-zA-Z0-9_.+-]` of the grok email regex's local part. -/
def isEmailLocalChar (c : Char) : Bool :=
  c.isAlpha || isDigitC c || c = '_' || c = '.' || c = '+' || c = '-'

/-- The class `[a-zA-Z0-9-]` of the first domain label. -/
def isEmailDomChar (c : Char) : Bool := c.isAlpha || isDigitC c || c = '-'

/-- The class `[a-zA-Z0-9-.]` of the domain tail. -/
def isEmailDomDotChar (c : Char) : Bool :=
  c.isAlpha || isDigitC c || c = '-' || c = '.'

/-- Match of the email regex `[a-zA-Z0-9_.+-]+@[a-zA-Z0-9-]+\.[a-zA-Z0-9-.]+`
anchored at the start of `l`: the matched text and the number of characters
it consumes. -/
def matchEmailAt (l : Str) : Option (Str × Nat) :=
  let lp := l.takeWhile isEmailLocalChar
  if lp.isEmpty then none
  else match l.drop lp.length with
    | '@' :: r1 =>
      let d1 := r1.takeWhile isEmailDomChar
      if d1.isEmpty then none
      else match r1.drop d1.length with
        | '.' :: r2 =>
          let d2 := r2.takeWhile isEmailDomDotChar
          if d2.isEmpty then none
          else some (lp ++ '@' :: (d1 ++ '.' :: d2),
            lp.length + 1 + d1.length + 1 + d2.length)
        | _ => none
    | _ => none

/-- Worker for `findEmails`: a positive first argument skips the characters
of a match already emitted. -/
def findEmailsGo : Nat → Str → List Str
  | n + 1, _ :: t => findEmailsGo n t
  | _, [] => []
  | 0, c :: t =>
    match matchEmailAt (c :: t) with
    | some (m, len) => m :: findEmailsGo (len - 1) t
    | none => findEmailsGo 0 t

/-- `captures_iter` of the grok email regex: all non-overlapping matches,
scanning left to right. -/
def findEmails (l : Str) : List Str := findEmailsGo 0 l

/-- `is_match` of the grok/shared email regex on any position of `s`. -/
def emailIsMatch : Str → Bool
  | [] => false
  | l@(_ :: t) => (matchEmailAt l).isSome || emailIsMatch t

/-- `contains_dangerous_characters` (`src/calendar/calendar_validation.rs`). -/
def contains_dangerous_characters (input : Str) : Bool :=
  input.any (fun c => c = ';') || input.any (fun c => c = '&')
    || input.any (fun c => c = '|') || input.any (fun c => c = '<')
    || input.any (fun c => c = '>') || input.any (fun c => c = '$')

/-- The class `[A-Za-z0-9._%+-]` of `validate_email`'s local part. -/
def isVLocalChar (c : Char) : Bool :=
  c.isAlpha || isDigitC c || c = '.' || c = '_' || c = '%' || c = '+' || c = '-'

/-- The class `[A-Za-z0-9.-]` of `validate_email`'s domain. -/
def isVDomChar (c : Char) : Bool :=
  c.isAlpha || isDigitC c || c = '.' || c = '-'

/-- The anchored regex `^[A-Za-z0-9._%+-]+@[A-Za-z0-9.-]+\.[A-Za-z]{2,}$` of
`validate_email`; the domain split is existential over the backtracking
choices of the final dot. -/
def validEmailShape (e : Str) : Bool :=
  let lp := e.takeWhile isVLocalChar
  if lp.isEmpty then false
  else match e.drop lp.length with
    | '@' :: rest =>
      (List.range rest.length).any (fun k =>
        match rest.drop k with
        | '.' :: d2 =>
          !(rest.take k).isEmpty && (rest.take k).all isVDomChar
            && decide (d2.length ≥ 2) && d2.all Char.isAlpha
        | _ => false)
    | _ => false

/-- `validate_email` (`src/calendar/calendar_validation.rs`). -/
def validate_email (email : Str) : Bool :=
  validEmailShape email && !(contains_dangerous_characters email)

/-- `extract_email_addresses` (grok utils): regex matches filtered through
`validate_email`. -/
def extract_email_addresses (input : Str) : List Str :=
  (findEmails input).filter validate_email

/-- Rust `str::split(|c| c == ',' || c == ';' || c == '.')`: split at every
separator character. -/
def splitCharClass (s : Str) : List Str :=
  match s with
  | [] => [[]]
  | c :: t =>
    if c = ',' || c = ';' || c = '.' then [] :: splitCharClass t
    else
      match splitCharClass t with
      | [] => [[c]]
      | seg :: rest => (c :: seg) :: rest

/-- The trailing stop words trimmed by `refine_name`. -/
def stop_words : List Str :=
  [str "at", str "on", str "tomorrow", str "today", str "for", str "about",
   str "regarding"]

/-- `refine_name` (`src/parser/natural_language/mod.rs`): repeatedly truncate
at the first occurrence of a space-prefixed stop word (searched in the
lowercased name). -/
def refine_name (namePart : Str) : Str :=
  stop_words.foldl (fun fn w =>
    match findSubIdx (rustToLower fn) (' ' :: w) with
    | some pos => rustTrim (fn.take pos)
    | none => fn) (rustTrim namePart)

/-- `extract_contact_names` (`src/parser/natural_language/mod.rs`): names
after `with`/`to`/`invite`, split on `,`/`;`/`.` and `and`, refined and
email-filtered. -/
def extract_contact_names (input : Str) : List Str :=
  let inputLower := rustToLower input
  let textToParse : Option Str :=
    if rustContains inputLower (str " with ") then
      (rustSplit input (str " with ")).get? 1
    else if rustContains inputLower (str " to ") then
      (rustSplit input (str " to ")).get? 1
    else if rustContains inputLower (str "invite ") then
      afterFirst (str "invite ") input
    else none
  match textToParse with
  | none => []
  | some afterWord =>
    (splitCharClass afterWord).foldl (fun acc part =>
      let part := rustTrim part
      if part.isEmpty then acc
      else if emailIsMatch part then acc
      else if rustContains part (str " and ") then
        acc ++ (rustSplit part (str " and ")).filterMap (fun ap =>
          let fn := refine_name ap
          if !fn.isEmpty && !(emailIsMatch fn) then some fn else none)
      else
        let fn := refine_name part
        if !fn.isEmpty && !(emailIsMatch fn) then acc ++ [fn] else acc) []

/-! ## The contact/email enhancement stage -/

/-- Length of the match of `--email\s+"([^@"]+)"` anchored at the start of
`l`, when it matches there. -/
def emailFlagMatchAt (l : Str) : Option Nat :=
  if (str "--email").isPrefixOf l then
    let r0 := l.drop 7
    let wsn := (r0.takeWhile rustIsWhitespace).length
    if wsn = 0 then none
    else match r0.drop wsn with
      | '"' :: r1 =>
        let v := r1.takeWhile (fun c => !(c = '@' || c = '"'))
        if v.isEmpty then none
        else match r1.drop v.length with
          | '"' :: _ => some (7 + wsn + 1 + v.length + 1)
          | _ => none
      | _ => none
  else none

/-- `email_regex.replace(&enhanced, "")`: remove the leftmost match of
`--email\s+"([^@"]+)"`; `none` when there is no match.  (The capture class
`[^@"]+` already excludes `@`, so the source's subsequent
`!email_value.contains('@')` test holds whenever the regex matches.) -/
def removeFirstEmailFlag : Str → Option Str
  | [] => none
  | l@(c :: t) =>
    match emailFlagMatchAt l with
    | some len => some (l.drop len)
    | none => (removeFirstEmailFlag t).map (c :: ·)

/-- Comma-join then escape embedded quotes (`join(",")` followed by
`replace("\"", "\\\"")`). -/
def joinEscaped (xs : List Str) : Str :=
  rustReplace (List.intercalate (str ",") xs) (str "\"") (str "\\\"")

/-- `enhance_command_with_contacts` (grok utils): add `--email`/`--contacts`
flags extracted from the original input and clean up malformed `--email`
flags. -/
def enhance_command_with_contacts (command input : Str) : Str :=
  if !(rustContains command (str "calendar create")) then command
  else
    let email_addresses := extract_email_addresses input
    let contact_names := extract_contact_names input
    let e1 :=
      if !email_addresses.isEmpty && !(rustContains command (str "--email")) then
        command ++ str " --email \"" ++ joinEscaped email_addresses ++ str "\""
      else command
    let e2 :=
      if rustContains e1 (str "--email") then
        let e1a :=
          match removeFirstEmailFlag e1 with
          | some e' => rustTrim e'
          | none => e1
        contact_names.foldl (fun acc name =>
          let quoted := str "--email \"" ++ name ++ str "\""
          if rustContains acc quoted then rustTrim (rustReplace acc quoted [])
          else acc) e1a
      else e1
    if !contact_names.isEmpty && !(rustContains e2 (str "--contacts")) then
      e2 ++ str " --contacts \"" ++ joinEscaped contact_names ++ str "\""
    else e2

/-! ## The end-time repair stage -/

/-- Captures of the end-time regex
`calendar create\s+"([^"]+)"\s+(\d{4}-\d{2}-\d{2})\s+(\d{1,2}:\d{2})\s+(\d{4}-\d{2}-\d{2}\s+)?(\d{1,2}:\d{2})`. -/
structure FixCaps where
  title : Str
  date : Str
  start : Str
  stray : Option Str
  endt : Str
deriving DecidableEq

/-- `\s+`: require at least one whitespace character, consume the maximal
run. -/
def parseWs1 (l : Str) : Option Str :=
  if rustIsWhitespace (l.headD 'x') then some (l.dropWhile rustIsWhitespace)
  else none

/-- `\d{4}-\d{2}-\d{2}`: consume exactly a date-shaped prefix. -/
def parseDate : Str → Option (Str × Str)
  | a :: b :: c :: d :: '-' :: e :: f :: '-' :: g :: h :: rest =>
    if isDigitC a && isDigitC b && isDigitC c && isDigitC d && isDigitC e
        && isDigitC f && isDigitC g && isDigitC h then
      some ([a, b, c, d, '-', e, f, '-', g, h], rest)
    else none
  | _ => none

/-- `\d{1,2}:\d{2}`: consume a time-shaped prefix (two hour digits preferred,
as the greedy `\d{1,2}` tries them first; when the second character is the
colon only the one-digit form can match). -/
def parseTime : Str → Option (Str × Str)
  | a :: b :: rest =>
    if b = ':' then
      match rest with
      | c :: d :: rest2 =>
        if isDigitC a && isDigitC c && isDigitC d then
          some ([a, ':', c, d], rest2)
        else none
      | _ => none
    else
      match rest with
      | ':' :: c :: d :: rest2 =>
        if isDigitC a && isDigitC b && isDigitC c && isDigitC d then
          some ([a, b, ':', c, d], rest2)
        else none
      | _ => none
  | _ => none

/-- The end-time regex after its literal `calendar create` prefix: whitespace,
quoted title, date, start time, an optional stray date, end time.  (The
quote tests are written as `if` conditions and the captured title and the
no-stray fallback are written out at each use site, so the definition
reduces step by step in proofs.) -/
def fixTail (l : Str) : Option FixCaps :=
  match parseWs1 l with
  | none => none
  | some r1 =>
    match r1 with
    | q1 :: r2 =>
      if q1 = '"' then
        if (r2.takeWhile (fun c => !(c = '"'))).isEmpty then none
        else
          match r2.dropWhile (fun c => !(c = '"')) with
          | q2 :: r3 =>
            if q2 = '"' then
              match parseWs1 r3 with
              | none => none
              | some r4 =>
                match parseDate r4 with
                | none => none
                | some (date, r5) =>
                  match parseWs1 r5 with
                  | none => none
                  | some r6 =>
                    match parseTime r6 with
                    | none => none
                    | some (startT, r7) =>
                      match parseWs1 r7 with
                      | none => none
                      | some r8 =>
                        match parseDate r8 with
                        | some (d2, r9) =>
                          match parseWs1 r9 with
                          | some r10 =>
                            match parseTime r10 with
                            | some (endT, _) =>
                              some ⟨r2.takeWhile (fun c => !(c = '"')),
                                date, startT, some d2, endT⟩
                            | none =>
                              match parseTime r8 with
                              | some (endT, _) =>
                                some ⟨r2.takeWhile (fun c => !(c = '"')),
                                  date, startT, none, endT⟩
                              | none => none
                          | none =>
                            match parseTime r8 with
                            | some (endT, _) =>
                              some ⟨r2.takeWhile (fun c => !(c = '"')),
                                date, startT, none, endT⟩
                            | none => none
                        | none =>
                          match parseTime r8 with
                          | some (endT, _) =>
                            some ⟨r2.takeWhile (fun c => !(c = '"')),
                              date, startT, none, endT⟩
                          | none => none
            else none
          | [] => none
      else none
    | [] => none

/-- Leftmost match of the end-time regex: scan for `calendar create` and try
the tail at each occurrence. -/
def fixScan : Str → Option FixCaps
  | [] => none
  | l@(_ :: t) =>
    if (str "calendar create").isPrefixOf l then
      match fixTail (l.drop 15) with
      | some caps => some caps
      | none => fixScan t
    else fixScan t

/-- The pattern a recurrence-regex match certifies: digits, then a space,
then a unit word. -/
def everyPat (ds : Str) (u : RecUnit) : Str :=
  str "every " ++ ds ++ [' '] ++ recUnitStr u

/-- Shape of a `\d{4}-\d{2}-\d{2}` capture. -/
def isDateShape : Str → Bool
  | [a, b, c, d, '-', e, f, '-', g, h] =>
    isDigitC a && isDigitC b && isDigitC c && isDigitC d && isDigitC e
      && isDigitC f && isDigitC g && isDigitC h
  | _ => false

/-- Shape of a `\d{1,2}:\d{2}` capture. -/
def isTimeShape : Str → Bool
  | [a, b, ':', c, d] => isDigitC a && isDigitC b && isDigitC c && isDigitC d
  | [a, ':', c, d] => isDigitC a && isDigitC c && isDigitC d
  | _ => false

/-- `fix_calendar_end_time_format` (grok utils): when a stray date precedes
the end time, drop it and reassemble the command. -/
def fix_calendar_end_time_format (command : Str) : Str :=
  if !(rustContains command (str "calendar create")) then command
  else match fixScan command with
    | some caps =>
      match caps.stray with
      | some _ =>
        let afterEnd :=
          match afterFirst caps.endt command with
          | some a => a
          | none => []
        str "ducktape calendar create \"" ++ caps.title ++ str "\" "
          ++ caps.date ++ str " " ++ caps.start ++ str " " ++ caps.endt
          ++ str " " ++ rustTrim afterEnd
      | none => command
    | none => command



/-! ## The synthesizer layer (`src/parser/natural_language/grok/`) -/

/-- `sanitize_user_input`: strip control characters, keeping newline and
tab. -/
def sanitize_user_input (input : Str) : Str :=
  input.filter (fun c => !(rustIsControl c) || c = '\n' || c = '\t')

/-- The event-creation markers of `sanitize_nlp_command` (grok utils). -/
def sanitizeEventCreation (command : Str) : Bool :=
  rustContains command (str "create an event")
    || rustContains command (str "schedule a")
    || rustContains command (str "create event")
    || rustContains command (str "schedule event")
    || rustContains command (str "create a meeting")
    || rustContains command (str "schedule meeting")

/-- `sanitize_nlp_command` (grok utils): prefix non-`ducktape` commands,
turning event-creation phrasings into a stub `calendar create` command with a
title extracted after ` called `. -/
def sanitize_nlp_command (command : Str) : Str :=
  if !(rustStartsWith command (str "ducktape")) then
    if sanitizeEventCreation command then
      let title :=
        if rustContains command (str " called ") then
          match (rustSplit command (str " called ")).get? 1 with
          | some titlePart =>
            let endPos := [str " at ", str " on ", str " for ", str " with ",
                str " and "].foldl
              (fun e m =>
                match findSubIdx titlePart m with
                | some p => if p < e then p else e
                | none => e) titlePart.length
            titlePart.take endPos
          | none => str "Event"
        else str "Event"
      str "ducktape calendar create \"" ++ title
        ++ str "\" today 00:00 01:00 \"Calendar\""
    else str "ducktape " ++ command
  else
    rustReplace (rustReplace command (str "\u00A0") (str " "))
      (str "\"\"") (str "\"")

/-- The enhancement chain, in the order `parse_natural_language` applies its
stages: recurrence, contacts/emails, meeting link, end-time repair. -/
def enhance_chain (commands sanitizedInput : Str) : Str :=
  fix_calendar_end_time_format
    (enhance_command_with_zoom
      (enhance_command_with_contacts
        (enhance_recurrence_command commands) sanitizedInput) sanitizedInput)

/-- `parse_natural_language` (`grok/api.rs`), with its effects made explicit:
`cache` is the lookup into the process-wide LRU response cache and `api` is
the combined outcome of loading the key and calling the provider (any
failure of those steps is its `.error`; its `.ok` is the reply content).
Mirrors the source's order: input checks, sanitization, cache lookup,
provider call, the four enhancement stages, final validation. -/
def parse_natural_language (input : Str) (cache : Str → Option Str)
    (api : Except Str Str) : Except Str Str :=
  if input.isEmpty then .error (str "Empty input provided")
  else if rustByteLen input > 1000 then
    .error (str "Input too long (max 1000 characters)")
  else
    let sanitized := sanitize_user_input input
    match cache sanitized with
    | some cached => .ok cached
    | none =>
      match api with
      | .error e => .error e
      | .ok content =>
        let enhanced := enhance_chain (rustTrim content) sanitized
        match validate_calendar_command_nl enhanced with
        | .ok _ => .ok enhanced
        | .error e => .error e

/-- The cache insertion `parse_natural_language` performs
(`cache::store_response`): the sanitized input mapped to the trimmed raw
provider reply, stored before enhancement and before validation; no
insertion happens on the early-error or cache-hit paths. -/
def parse_natural_language_store (input : Str) (cache : Str → Option Str)
    (api : Except Str Str) : Option (Str × Str) :=
  if input.isEmpty then none
  else if rustByteLen input > 1000 then none
  else
    let sanitized := sanitize_user_input input
    match cache sanitized with
    | some _ => none
    | none =>
      match api with
      | .error _ => none
      | .ok content => some (sanitized, rustTrim content)

/-- The flag half of the command model (`CommandArgs.flags`), as an ordered
association list. -/
abbrev FlagMap := List (Str × Option Str)

/-- `CommandArgs` (`src/command_processor.rs`). -/
structure CommandArgs where
  command : Str
  args : List Str
  flags : FlagMap
deriving DecidableEq

/-- `ParseResult` (`src/parser/traits.rs`). -/
inductive ParseResult
  | CommandString (s : Str)
  | StructuredCommand (args : CommandArgs)
deriving DecidableEq

/-- The event-creation intent detection of `GrokParser::parse_input`
(`grok/mod.rs`). -/
def grokIsEventCreation (input : Str) : Bool :=
  let l := rustToLower input
  rustContains l (str "create an event")
    || rustContains l (str "schedule a meeting")
    || rustContains l (str "create a meeting")
    || rustContains l (str "add an event")
    || rustContains l (str "create event")
    || (rustContains l (str "schedule")
        && (rustContains l (str "meeting") || rustContains l (str "event")))

/-- `GrokParser::parse_input` (`grok/mod.rs`): `keyOk` is whether
`XAI_API_KEY` is set; `cache`/`api` are threaded to
`parse_natural_language`.  On event-creation inputs a provider failure falls
back to `sanitize_nlp_command` of the raw input; otherwise it propagates. -/
def parse_input (input : Str) (keyOk : Bool) (cache : Str → Option Str)
    (api : Except Str Str) : Except Str ParseResult :=
  if !keyOk then
    .error (str "XAI_API_KEY environment variable not set. Please set your X.AI API key using: export XAI_API_KEY='your-key-here'")
  else if grokIsEventCreation input then
    match parse_natural_language input cache api with
    | .ok command => .ok (.CommandString (sanitize_nlp_command command))
    | .error _ => .ok (.CommandString (sanitize_nlp_command input))
  else
    match parse_natural_language input cache api with
    | .ok command => .ok (.CommandString (sanitize_nlp_command command))
    | .error e => .error e

/-! ## Tokenizer and structured parser (`src/command_processor.rs`) -/

/-- State of the shell-words splitter: between/inside an unquoted token,
inside double quotes, inside single quotes. -/
inductive SWState | normal | double | single

/-- Modelled from the spec: the external `shell_words::split` crate call used
as the tokenizer's primary strategy, which is not part of this repository.
Per the spec: whitespace-separated tokens, double/single quotes group text
(quotes removed from the output), backslash escapes the next character, and
an unterminated quote is a hard error.  `cur = some tok` is the token
accumulated so far (`some []` after an empty quoted token). -/
def shellRun : Str → SWState → Option Str → List Str → Except Str (List Str)
  | [], .normal, cur, acc => .ok (acc ++ cur.toList)
  | [], .double, _, _ => .error (str "Unclosed quote")
  | [], .single, _, _ => .error (str "Unclosed quote")
  | c :: t, .normal, cur, acc =>
    if rustIsWhitespace c then
      match cur with
      | some tok => shellRun t .normal none (acc ++ [tok])
      | none => shellRun t .normal none acc
    else if c = '\\' then
      match t with
      | [] => .ok (acc ++ [cur.getD [] ++ ['\\']])
      | d :: t2 => shellRun t2 .normal (some (cur.getD [] ++ [d])) acc
    else if c = '"' then shellRun t .double (some (cur.getD [])) acc
    else if c = '\'' then shellRun t .single (some (cur.getD [])) acc
    else shellRun t .normal (some (cur.getD [] ++ [c])) acc
  | c :: t, .double, cur, acc =>
    if c = '"' then shellRun t .normal cur acc
    else if c = '\\' then
      match t with
      | [] => .error (str "Unclosed quote")
      | d :: t2 => shellRun t2 .double (some (cur.getD [] ++ [d])) acc
    else shellRun t .double (some (cur.getD [] ++ [c])) acc
  | c :: t, .single, cur, acc =>
    if c = '\'' then shellRun t .normal cur acc
    else shellRun t .single (some (cur.getD [] ++ [c])) acc

/-- Modelled from the spec: `shell_words::split`, the primary splitting
strategy. -/
def shell_split (s : Str) : Except Str (List Str) := shellRun s .normal none []

/-- The manual fallback tokenizer inside `tokenize_input`: double quotes
toggle grouping, backslash escapes the next character, whitespace outside
quotes separates tokens, empty tokens are dropped, an unclosed quote is an
error. -/
def manualRun : Str → Str → Bool → List Str → Except Str (List Str)
  | [], cur, inQ, acc =>
    if inQ then .error (str "Unclosed quote in input")
    else .ok (if cur.isEmpty then acc else acc ++ [cur])
  | c :: t, cur, inQ, acc =>
    if c = '\\' then
      match t with
      | [] =>
        if inQ then .error (str "Unclosed quote in input")
        else .ok (if cur.isEmpty then acc else acc ++ [cur])
      | d :: t2 => manualRun t2 (cur ++ [d]) inQ acc
    else if c = '"' then manualRun t cur (!inQ) acc
    else if rustIsWhitespace c && !inQ then
      if cur.isEmpty then manualRun t [] inQ acc
      else manualRun t [] inQ (acc ++ [cur])
    else manualRun t (cur ++ [c]) inQ acc

/-- Does the token look fully quoted (`starts_with('"') && ends_with('"')`,
or the same with single quotes)? -/
def looksQuoted (t : Str) : Bool :=
  (t.head? = some '"' && t.getLast? = some '"')
    || (t.head? = some '\'' && t.getLast? = some '\'')

/-- `postprocess_flags`: re-group the values of `--contacts` (joining
unquoted multi-token values and re-quoting them) and pass the values of the
other free-text flags through unchanged.  When `--contacts` is immediately
followed by another `--` token, the source's `i += 2` skips that token
without emitting it. -/
def postprocessGo : Nat → List Str → List Str
  | n + 1, _ :: rest => postprocessGo n rest
  | _, [] => []
  | 0, tok :: rest =>
    if tok = str "--contacts" ∧ rest ≠ [] then
      let next := rest.headD []
      if looksQuoted next then tok :: next :: postprocessGo 1 rest
      else
        let contactParts := rest.takeWhile
          (fun t => !(rustStartsWith t (str "--")))
        if contactParts ≠ [] then
          let contactStr := List.intercalate (str " ") contactParts
          let quoted :=
            if looksQuoted contactStr then contactStr
            else '"' :: (contactStr ++ ['"'])
          tok :: quoted :: postprocessGo contactParts.length rest
        else tok :: postprocessGo 1 rest
    else if rustStartsWith tok (str "--")
        ∧ (tok.drop 2 = str "location" ∨ tok.drop 2 = str "notes"
          ∨ tok.drop 2 = str "email" ∨ tok.drop 2 = str "contacts")
        ∧ rest ≠ [] then
      tok :: rest.headD [] :: postprocessGo 1 rest
    else tok :: postprocessGo 0 rest

/-- The flag post-processing pass over the token list. -/
def postprocess_flags (tokens : List Str) : List Str := postprocessGo 0 tokens

/-- `tokenize_input`: the primary shell-words strategy with the manual
fallback, both followed by the flag post-processing pass. -/
def tokenize_input (input : Str) : Except Str (List Str) :=
  match shell_split input with
  | .ok tokens => .ok (postprocess_flags tokens)
  | .error _ =>
    match manualRun input [] false [] with
    | .ok tokens => .ok (postprocess_flags tokens)
    | .error e => .error e

/-- Modelled from the spec: `join_with_quoting`, the (unimplemented)
inverse the round-trip property quantifies over — shell-style quoting of
each token (single-quote wrapping, under which every character is literal),
joined by single spaces. -/
def join_with_quoting : List Str → Str
  | [] => []
  | [t] => '\'' :: (t ++ ['\''])
  | t :: u :: rest =>
    ('\'' :: (t ++ ['\''])) ++ ' ' :: join_with_quoting (u :: rest)

/-- Rust `str::eq_ignore_ascii_case`. -/
def rustEqIgnoreAsciiCase (a b : Str) : Bool :=
  a.map Char.toLower == b.map Char.toLower

/-- `HashMap::insert`, on the ordered association-list model of the flag
map: overwrite an existing key in place, otherwise append. -/
def flagInsert (m : FlagMap) (k : Str) (v : Option Str) : FlagMap :=
  if m.any (fun p => p.1 = k) then
    m.map (fun p => if p.1 = k then (k, v) else p)
  else m ++ [(k, v)]

/-- The token loop of `CommandArgs::parse`: `--` tokens open a flag, the
next non-flag token becomes its value, other tokens are positionals. -/
def processTokens (tokens : List Str) : List Str × FlagMap :=
  let step := fun (st : List Str × FlagMap × Option Str) (token : Str) =>
    let (args, flags, cur) := st
    if rustStartsWith token (str "--") then
      let flags' := match cur with
        | some f => flagInsert flags f none
        | none => flags
      (args, flags', some (token.drop 2))
    else
      match cur with
      | some f => (args, flagInsert flags f (some token), none)
      | none => (args ++ [token], flags, none)
  match tokens.foldl step ([], [], none) with
  | (args, flags, some f) => (args, flagInsert flags f none)
  | (args, flags, none) => (args, flags)

/-- `process_calendar_create_args`: join leading unquoted title words (words
with no `-` and no `:`) of a `calendar create` into one title argument. -/
def process_calendar_create_args (args : List Str) : List Str :=
  match args with
  | a0 :: a1 :: rest =>
    if a1.any (fun c => c = ' ') then a0 :: a1 :: rest
    else
      let moreTitle := rest.takeWhile
        (fun t => !(t.any (fun c => c = '-') || t.any (fun c => c = ':')))
      if moreTitle ≠ [] then
        a0 :: List.intercalate (str " ") (a1 :: moreTitle)
          :: rest.drop moreTitle.length
      else a0 :: a1 :: rest
  | other => other

/-- `CommandArgs::parse`: normalize, tokenize, strip a leading `ducktape`,
lower-case the command name, separate positionals from flags, and repair
multi-word `calendar create` titles. -/
def CommandArgs.parse (input : Str) : Except Str CommandArgs :=
  let normalized := rustReplace input (str " ") (str " ")
  match tokenize_input normalized with
  | .error e => .error e
  | .ok tokens =>
    match tokens with
    | [] => .error (str "No command provided")
    | first :: restTokens =>
      let cmdAndRest : Except Str (Str × List Str) :=
        if rustEqIgnoreAsciiCase first (str "ducktape") then
          match restTokens with
          | [] => .error (str "No command provided after 'ducktape'")
          | c :: r => .ok (rustToLower c, r)
        else .ok (rustToLower first, restTokens)
      match cmdAndRest with
      | .error e => .error e
      | .ok (command, rest) =>
        let (args, flags) := processTokens rest
        let args' :=
          if command = str "calendar" ∧ args.head? = some (str "create") then
            process_calendar_create_args args
          else args
        .ok ⟨command, args', flags⟩

/-! ## Handler registry and dispatcher (`src/command_processor.rs`) -/

/-- The `can_handle` predicates of the ten handlers registered by
`CommandProcessor::new`, in registration order. -/
def canHandleList : List (Str → Bool) :=
  [fun c => c = str "calendar" || c = str "calendars" || c = str "calendar-props",
   fun c => c = str "todo" || c = str "todos",
   fun c => c = str "note" || c = str "notes",
   fun c => c = str "config",
   fun c => c = str "utility" || c = str "utils",
   fun c => c = str "contacts" || c = str "contact",
   fun c => c = str "version" || c = str "--version" || c = str "-v",
   fun c => c = str "help" || c = str "--help" || c = str "-h",
   fun c => c = str "exit" || c = str "quit",
   fun c => c = str "reminder" || c = str "reminders"]

/-- The observable outcome of `CommandProcessor::execute`: either the first
matching handler ran (with its result), or no handler matched and the
"Unrecognized command" message was printed. -/
inductive DispatchOutcome
  | handled (idx : Nat) (r : Except Str Unit)
  | unrecognized

/-- Index of the first handler whose `can_handle` accepts the name. -/
def findHandler (name : Str) : List (Str → Bool) → Option Nat
  | [] => none
  | p :: rest => if p name then some 0 else (findHandler name rest).map (· + 1)

/-- `CommandProcessor::execute`: scan the handlers in registration order and
run the first whose `can_handle` accepts the command name; `exec i args` is
the (external) effect of handler `i`. -/
def CommandProcessor.execute (exec : Nat → CommandArgs → Except Str Unit)
    (args : CommandArgs) : DispatchOutcome :=
  match findHandler args.command canHandleList with
  | some i => .handled i (exec i args)
  | none => .unrecognized

/-- The `anyhow::Result<()>` the dispatcher returns for an outcome: a
handler's own result when one ran, `Ok(())` when none matched. -/
def dispatchResult : DispatchOutcome → Except Str Unit
  | .handled _ r => r
  | .unrecognized => .ok ()

/-! ## C1: the validators reject shell metacharacters -/

/-- **C1.** Any command text containing `&&`, `|`, `;` or a backtick is
rejected by both copies of `validate_calendar_command`, regardless of the
surrounding content. -/
theorem validators_reject_metacharacters (c : Str)
    (h : rustContains c (str "&&") = true ∨ rustContains c (str "|") = true
      ∨ rustContains c (str ";") = true ∨ rustContains c (str "`") = true) :
    isErr (validate_calendar_command_nl c) = true ∧
      isErr (validate_calendar_command_openai c) = true := by
  have hcond : (rustContains c (str "&&") || rustContains c (str "|")
      || rustContains c (str ";") || rustContains c (str "`")) = true := by
    rcases h with h | h | h | h <;> simp [h]
  constructor
  · unfold validate_calendar_command_nl
    rw [if_pos hcond]
    rfl
  · unfold validate_calendar_command_openai
    rw [if_pos hcond]
    rfl

/-- Witness for C1 at the concrete command text
`ducktape calendar create "Meeting" 2024-05-01 14:00 15:00; rm -rf /`. -/
theorem validators_reject_metacharacters_witness :
    isErr (validate_calendar_command_nl
        (str "ducktape calendar create \"Meeting\" 2024-05-01 14:00 15:00; rm -rf /")) = true ∧
      isErr (validate_calendar_command_openai
        (str "ducktape calendar create \"Meeting\" 2024-05-01 14:00 15:00; rm -rf /")) = true :=
  validators_reject_metacharacters _ (Or.inr (Or.inr (Or.inl (by decide))))

/-! ## Substring lemmas -/

theorem rustContains_iff_infix_rel (c p : Str) : rustContains c p = true ↔ p <:+: c := by
  induction c with
  | nil =>
    simp only [rustContains, List.isEmpty_iff]
    constructor
    · rintro rfl; exact List.infix_rfl
    · intro h; simpa using List.eq_nil_of_infix_nil h
  | cons a t ih =>
    simp only [rustContains, Bool.or_eq_true, List.isPrefixOf_iff_prefix, ih,
      List.infix_cons_iff]

theorem rustContains_append_right (a b p : Str) (h : rustContains b p = true) :
    rustContains (a ++ b) p = true := by
  rw [rustContains_iff_infix_rel] at h ⊢
  exact h.trans (List.suffix_append a b).isInfix

theorem rustContains_append_left (a b p : Str) (h : rustContains a p = true) :
    rustContains (a ++ b) p = true := by
  rw [rustContains_iff_infix_rel] at h ⊢
  exact h.trans (List.prefix_append a b).isInfix

theorem regexFlagCapture_infix_rel (pat c : Str) (ds : Str)
    (h : regexFlagCapture pat c = some ds) : pat <:+: c := by
  induction c with
  | nil => simp [regexFlagCapture] at h
  | cons a t ih =>
    rw [regexFlagCapture] at h
    split at h
    · next hc =>
      simp only [Bool.and_eq_true] at hc
      exact (List.isPrefixOf_iff_prefix.mp hc.1).isInfix
    · exact (ih h).trans (List.suffix_cons a t).isInfix

/-! ## Trim and takeWhile lemmas -/

theorem infix_dropWhile_of_head {p c : Str} {hd : Char}
    (hhd : p.head? = some hd) (hw : rustIsWhitespace hd = false)
    (h : p <:+: c) : p <:+: c.dropWhile rustIsWhitespace := by
  induction c with
  | nil =>
    have := List.eq_nil_of_infix_nil h
    subst this
    simp at hhd
  | cons a t ih =>
    rw [List.dropWhile_cons]
    by_cases hwa : rustIsWhitespace a = true
    · simp only [hwa, if_true]
      rcases List.infix_cons_iff.mp h with hpre | hinf
      · rcases p with _ | ⟨p0, p'⟩
        · simp at hhd
        · have h0 : p0 = a := (List.cons_prefix_cons.mp hpre).1
          simp only [List.head?_cons, Option.some.injEq] at hhd
          rw [← hhd, h0] at hw
          rw [hwa] at hw
          cases hw
      · exact ih hinf
    · simp only [hwa, if_false]
      simpa using h

theorem rustContains_rustTrim {c p : Str} (hne : p ≠ [])
    (hh : rustIsWhitespace (p.headD ' ') = false)
    (hl : rustIsWhitespace (p.getLastD ' ') = false)
    (h : rustContains c p = true) : rustContains (rustTrim c) p = true := by
  rw [rustContains_iff_infix_rel] at h ⊢
  rcases p with _ | ⟨p0, p'⟩
  · cases hne rfl
  have hhd : (p0 :: p').head? = some ((p0 :: p').headD ' ') := by simp
  have step1 : (p0 :: p') <:+: c.dropWhile rustIsWhitespace :=
    infix_dropWhile_of_head hhd hh h
  have step2 : (p0 :: p').reverse <:+: (c.dropWhile rustIsWhitespace).reverse :=
    List.reverse_infix.mpr step1
  have hrev : ((p0 :: p').reverse).head? = some ((p0 :: p').getLastD ' ') := by
    rw [List.head?_reverse]
    rcases List.getLast?_isSome.mpr (List.cons_ne_nil p0 p') |> Option.isSome_iff_exists.mp
      with ⟨x, hx⟩
    rw [hx]
    rw [List.getLastD_eq_getLast?, hx]
    simp
  have step3 : (p0 :: p').reverse <:+:
      ((c.dropWhile rustIsWhitespace).reverse).dropWhile rustIsWhitespace :=
    infix_dropWhile_of_head hrev hl step2
  unfold rustTrim
  have := List.reverse_infix.mp
    (by simpa using step3 :
      ((p0 :: p').reverse) <:+:
        ((((c.dropWhile rustIsWhitespace).reverse).dropWhile
          rustIsWhitespace).reverse).reverse)
  simpa using this

theorem rustContains_trim_append_left {c : Str} (s : Str) {p : Str}
    (hne : p ≠ []) (hh : rustIsWhitespace (p.headD ' ') = false)
    (hl : rustIsWhitespace (p.getLastD ' ') = false)
    (h : rustContains c p = true) :
    rustContains (rustTrim c ++ s) p = true :=
  rustContains_append_left _ s p (rustContains_rustTrim hne hh hl h)

theorem takeWhile_append_cons {p : Char → Bool} {a : Str} (y : Char) (r : Str)
    (ha : ∀ x ∈ a, p x = true) (hy : p y = false) :
    (a ++ y :: r).takeWhile p = a := by
  induction a with
  | nil => simp [List.takeWhile_cons, hy]
  | cons x xs ih =>
    have hx : p x = true := ha x (List.mem_cons_self x xs)
    simp only [List.cons_append, List.takeWhile_cons, hx, if_true]
    rw [ih (fun z hz => ha z (List.mem_cons_of_mem x hz))]

theorem dropWhile_append_cons {p : Char → Bool} {a : Str} (y : Char) (r : Str)
    (ha : ∀ x ∈ a, p x = true) (hy : p y = false) :
    (a ++ y :: r).dropWhile p = y :: r := by
  induction a with
  | nil => simp [List.dropWhile_cons, hy]
  | cons x xs ih =>
    have hx : p x = true := ha x (List.mem_cons_self x xs)
    simp only [List.cons_append, List.dropWhile_cons, hx, if_true]
    exact ih (fun z hz => ha z (List.mem_cons_of_mem x hz))

/-! ## Idempotence of the meeting-link stage -/

theorem zoom_idempotent (c i : Str) :
    enhance_command_with_zoom (enhance_command_with_zoom c i) i
      = enhance_command_with_zoom c i := by
  by_cases h1 : (!(rustContains c (str "calendar create"))
      || rustContains c (str "--zoom")) = true
  · have e : enhance_command_with_zoom c i = c := by
      unfold enhance_command_with_zoom
      rw [if_pos h1]
    rw [e, e]
  · by_cases h2 : (zoom_keywords.any
        (fun k => rustContains (rustToLower i) k)) = true
    · have e : enhance_command_with_zoom c i
          = rustTrim c ++ str " --zoom" := by
        unfold enhance_command_with_zoom
        rw [if_neg h1]
        simp only [h2, if_true]
      rw [e]
      have hz : rustContains (rustTrim c ++ str " --zoom")
          (str "--zoom") = true :=
        rustContains_append_right _ _ _ (by decide)
      unfold enhance_command_with_zoom
      rw [if_pos (by simp [hz])]
    · have e : enhance_command_with_zoom c i = c := by
        unfold enhance_command_with_zoom
        rw [if_neg h1]
        rw [if_neg h2]
      rw [e, e]

/-! ## The recurrence regex scanner: soundness and completeness -/

theorem isPrefixOf_append_self (a b : Str) : a.isPrefixOf (a ++ b) = true :=
  List.isPrefixOf_iff_prefix.mpr (List.prefix_append a b)

theorem all_takeWhile (p : Char → Bool) (l : Str) :
    (l.takeWhile p).all p = true := by
  induction l with
  | nil => rfl
  | cons a t ih =>
    rw [List.takeWhile_cons]
    by_cases h : p a = true
    · simp [h, ih]
    · simp [h]

theorem isPrefixOf_cons_ne {a b : Char} (as bs : Str) (h : (a == b) = false) :
    (a :: as).isPrefixOf (b :: bs) = false := by
  simp only [List.isPrefixOf, h, Bool.false_and]

theorem recUnitBranch_sound {ds0 rest2 ds : Str} {u : RecUnit}
    (h : recUnitBranch ds0 rest2 = some (ds, u)) :
    ds = ds0 ∧ ∃ tl, rest2 = recUnitStr u ++ tl := by
  unfold recUnitBranch at h
  by_cases h1 : (str "day").isPrefixOf rest2 = true
  · rw [if_pos h1] at h
    injection h with h
    injection h with h hu
    obtain ⟨tl, htl⟩ := List.isPrefixOf_iff_prefix.mp h1
    exact ⟨h.symm, tl, by rw [← hu, ← htl]; rfl⟩
  · rw [if_neg h1] at h
    by_cases h2 : (str "week").isPrefixOf rest2 = true
    · rw [if_pos h2] at h
      injection h with h
      injection h with h hu
      obtain ⟨tl, htl⟩ := List.isPrefixOf_iff_prefix.mp h2
      exact ⟨h.symm, tl, by rw [← hu, ← htl]; rfl⟩
    · rw [if_neg h2] at h
      by_cases h3 : (str "month").isPrefixOf rest2 = true
      · rw [if_pos h3] at h
        injection h with h
        injection h with h hu
        obtain ⟨tl, htl⟩ := List.isPrefixOf_iff_prefix.mp h3
        exact ⟨h.symm, tl, by rw [← hu, ← htl]; rfl⟩
      · rw [if_neg h3] at h
        by_cases h4 : (str "year").isPrefixOf rest2 = true
        · rw [if_pos h4] at h
          injection h with h
          injection h with h hu
          obtain ⟨tl, htl⟩ := List.isPrefixOf_iff_prefix.mp h4
          exact ⟨h.symm, tl, by rw [← hu, ← htl]; rfl⟩
        · rw [if_neg h4] at h
          cases h

theorem recUnitBranch_complete (ds0 : Str) (u : RecUnit) (tl : Str) :
    recUnitBranch ds0 (recUnitStr u ++ tl) ≠ none := by
  have hDW : str "day" = 'd' :: str "ay" := rfl
  have hWW : str "week" = 'w' :: str "eek" := rfl
  have hMW : str "month" = 'm' :: str "onth" := rfl
  have hYW : str "year" = 'y' :: str "ear" := rfl
  unfold recUnitBranch
  cases u <;> simp only [recUnitStr]
  · rw [if_pos (isPrefixOf_append_self _ _)]
    simp
  · rw [if_neg ?_]
    · rw [if_pos (isPrefixOf_append_self _ _)]
      simp
    · rw [hDW, hWW, List.cons_append, isPrefixOf_cons_ne _ _ (by decide)]
      simp
  · rw [if_neg ?_]
    · rw [if_neg ?_]
      · rw [if_pos (isPrefixOf_append_self _ _)]
        simp
      · rw [hWW, hMW, List.cons_append, isPrefixOf_cons_ne _ _ (by decide)]
        simp
    · rw [hDW, hMW, List.cons_append, isPrefixOf_cons_ne _ _ (by decide)]
      simp
  · rw [if_neg ?_]
    · rw [if_neg ?_]
      · rw [if_neg ?_]
        · rw [if_pos (isPrefixOf_append_self _ _)]
          simp
        · rw [hMW, hYW, List.cons_append, isPrefixOf_cons_ne _ _ (by decide)]
          simp
      · rw [hWW, hYW, List.cons_append, isPrefixOf_cons_ne _ _ (by decide)]
        simp
    · rw [hDW, hYW, List.cons_append, isPrefixOf_cons_ne _ _ (by decide)]
      simp

theorem matchEveryAt_sound {l ds : Str} {u : RecUnit}
    (h : matchEveryAt l = some (ds, u)) :
    ds ≠ [] ∧ ds.all isDigitC = true ∧ ∃ tail, l = everyPat ds u ++ tail := by
  unfold matchEveryAt at h
  by_cases hp : (str "every ").isPrefixOf l = true
  · rw [if_pos hp] at h
    dsimp only at h
    obtain ⟨l6, hl6⟩ : ∃ t, str "every " ++ t = l :=
      List.isPrefixOf_iff_prefix.mp hp
    have hdrop : l.drop 6 = l6 := by
      rw [← hl6]
      rw [show (6 : Nat) = (str "every ").length from rfl]
      exact List.drop_left (str "every ") l6
    rw [hdrop] at h
    by_cases hds : (l6.takeWhile isDigitC).isEmpty = true
    · rw [if_pos hds] at h
      cases h
    · rw [if_neg hds] at h
      have hne : l6.takeWhile isDigitC ≠ [] := by
        simpa [List.isEmpty_iff] using hds
      have hall : (l6.takeWhile isDigitC).all isDigitC = true :=
        all_takeWhile isDigitC l6
      split at h
      · next rest2 hdw =>
        have hsplit : l6.takeWhile isDigitC ++ (' ' :: rest2) = l6 := by
          rw [← hdw]
          exact List.takeWhile_append_dropWhile isDigitC l6
        obtain ⟨hdseq, tl, htl⟩ := recUnitBranch_sound h
        have hsplit2 : ds ++ (' ' :: rest2) = l6 := by
          rw [hdseq]
          exact hsplit
        refine ⟨?_, ?_, tl, ?_⟩
        · rw [hdseq]
          exact hne
        · rw [hdseq]
          exact hall
        · rw [← hl6, ← hsplit2, htl]
          simp [everyPat]
      · cases h
  · rw [if_neg hp] at h
    cases h

theorem matchEveryAt_complete {ds : Str} (u : RecUnit) (tail : Str)
    (hne : ds ≠ []) (hall : ds.all isDigitC = true) :
    matchEveryAt (everyPat ds u ++ tail) ≠ none := by
  unfold matchEveryAt
  have hassoc : everyPat ds u ++ tail
      = str "every " ++ (ds ++ (' ' :: (recUnitStr u ++ tail))) := by
    simp [everyPat]
  rw [hassoc]
  rw [if_pos (isPrefixOf_append_self _ _)]
  dsimp only
  rw [show (6 : Nat) = (str "every ").length from rfl, List.drop_left]
  have hdigall : ∀ x ∈ ds, isDigitC x = true := fun x hx =>
    List.all_eq_true.mp hall x hx
  have hsp : isDigitC ' ' = false := by decide
  rw [takeWhile_append_cons ' ' _ hdigall hsp]
  rw [dropWhile_append_cons ' ' _ hdigall hsp]
  rw [if_neg (by simpa [List.isEmpty_iff] using hne)]
  show recUnitBranch ds (recUnitStr u ++ tail) ≠ none
  exact recUnitBranch_complete ds u tail

theorem regexEveryNum_cons (a : Char) (t : Str) :
    regexEveryNum (a :: t)
      = match matchEveryAt (a :: t) with
        | some r => some r
        | none => regexEveryNum t := rfl

theorem regexEveryNum_sound {l ds : Str} {u : RecUnit}
    (h : regexEveryNum l = some (ds, u)) :
    ds ≠ [] ∧ ds.all isDigitC = true ∧
      ∃ pre tail, l = pre ++ everyPat ds u ++ tail := by
  induction l with
  | nil => cases h
  | cons a t ih =>
    rw [regexEveryNum_cons] at h
    cases hm : matchEveryAt (a :: t) with
    | some r =>
      rw [hm] at h
      obtain ⟨hne, hall, tail, htl⟩ := matchEveryAt_sound (hm.trans h)
      exact ⟨hne, hall, [], tail, by simpa using htl⟩
    | none =>
      rw [hm] at h
      obtain ⟨hne, hall, pre, tail, htl⟩ := ih h
      exact ⟨hne, hall, a :: pre, tail, by rw [htl]; simp⟩

theorem regexEveryNum_complete {ds : Str} (u : RecUnit) (pre tail : Str)
    (hne : ds ≠ []) (hall : ds.all isDigitC = true) :
    regexEveryNum (pre ++ everyPat ds u ++ tail) ≠ none := by
  induction pre with
  | nil =>
    have hcons : everyPat ds u ++ tail
        = 'e' :: ((str "very " ++ ds ++ [' '] ++ recUnitStr u) ++ tail) := by
      simp [everyPat]
      rw [show str "every " = 'e' :: str "very " from rfl]
      simp
    rw [List.nil_append, hcons, regexEveryNum_cons]
    rw [← hcons]
    cases hm : matchEveryAt (everyPat ds u ++ tail) with
    | some r => simp
    | none => exact absurd hm (matchEveryAt_complete u tail hne hall)
  | cons a pre2 ih =>
    rw [List.cons_append, List.cons_append, regexEveryNum_cons]
    cases hm : matchEveryAt (a :: (pre2 ++ everyPat ds u ++ tail)) with
    | some r => simp
    | none =>
      simpa using ih

theorem regexEveryNum_eq_none_of_not_v {l : Str} (hv : 'v' ∉ l) :
    regexEveryNum l = none := by
  induction l with
  | nil => rfl
  | cons a t ih =>
    have hm : matchEveryAt (a :: t) = none := by
      unfold matchEveryAt
      rw [if_neg ?_]
      · intro hp
        obtain ⟨tl, htl⟩ := List.isPrefixOf_iff_prefix.mp hp
        apply hv
        rw [← htl]
        exact List.mem_append_left tl (by decide)
    rw [regexEveryNum_cons, hm]
    exact ih (fun hmem => hv (List.mem_cons_of_mem a hmem))

theorem regexEveryNum_none_infix {a c : Str} (hinf : a <:+: c)
    (hc : regexEveryNum c = none) : regexEveryNum a = none := by
  cases ha : regexEveryNum a with
  | none => rfl
  | some r =>
    exfalso
    obtain ⟨ds, u⟩ := r
    obtain ⟨hne, hall, pre, tail, hdec⟩ := regexEveryNum_sound ha
    obtain ⟨s, t, hst⟩ := hinf
    have hc2 : c = (s ++ pre) ++ everyPat ds u ++ (tail ++ t) := by
      rw [← hst, hdec]
      simp
    exact regexEveryNum_complete u (s ++ pre) (tail ++ t) hne hall
      (hc2 ▸ hc)

theorem rustTrim_infix_rel (c : Str) : rustTrim c <:+: c := by
  unfold rustTrim
  have h1 : c.dropWhile rustIsWhitespace <:+ c := List.dropWhile_suffix _
  have h2 : ((c.dropWhile rustIsWhitespace).reverse.dropWhile
      rustIsWhitespace).reverse <+: c.dropWhile rustIsWhitespace := by
    rw [← List.reverse_suffix]
    simpa using
      List.dropWhile_suffix (l := (c.dropWhile rustIsWhitespace).reverse)
        (p := rustIsWhitespace)
  exact h2.isInfix.trans h1.isInfix

theorem append_split_three {x y pre P tail : Str}
    (h : x ++ y = pre ++ P ++ tail) :
    (∃ t2, x = pre ++ P ++ t2) ∨ (∃ p2, y = p2 ++ P ++ tail) ∨
      (∃ k, 0 < k ∧ k < P.length ∧ ∃ t2, y = P.drop k ++ t2) := by
  by_cases h1 : pre.length + P.length ≤ x.length
  · left
    have hx : x = (pre ++ P ++ tail).take x.length := by
      rw [← h]
      exact (List.take_left x y).symm
    rw [List.take_append_eq_append_take] at hx
    rw [List.take_of_length_le (by simp only [List.length_append]; omega)] at hx
    exact ⟨_, hx⟩
  · by_cases h2 : x.length ≤ pre.length
    · right; left
      have hy : y = (pre ++ P ++ tail).drop x.length := by
        rw [← h]
        exact (List.drop_left x y).symm
      rw [List.drop_append_eq_append_drop] at hy
      rw [show x.length - (pre ++ P).length = 0 by
        simp only [List.length_append]; omega, List.drop_zero] at hy
      rw [List.drop_append_eq_append_drop] at hy
      rw [show x.length - pre.length = 0 by omega, List.drop_zero] at hy
      exact ⟨pre.drop x.length, by rw [hy]⟩
    · right; right
      refine ⟨x.length - pre.length, by omega, by omega, tail, ?_⟩
      have hy : y = (pre ++ P ++ tail).drop x.length := by
        rw [← h]
        exact (List.drop_left x y).symm
      rw [List.drop_append_eq_append_drop] at hy
      rw [show x.length - (pre ++ P).length = 0 by
        simp only [List.length_append]; omega, List.drop_zero] at hy
      rw [List.drop_append_eq_append_drop] at hy
      rw [List.drop_eq_nil_of_le (by omega)] at hy
      rw [hy]
      simp

theorem head?_append_cons (c : Char) (l r : Str) :
    ((c :: l) ++ r).head? = some c := rfl

theorem regexEveryNum_append_none {a b : Str} (hb0 : b.head? = some ' ')
    (hb1 : b.get? 1 = some '-') (hbv : 'v' ∉ b)
    (ha : regexEveryNum a = none) : regexEveryNum (a ++ b) = none := by
  have h6len : (str "every ").length = 6 := rfl
  cases hab : regexEveryNum (a ++ b) with
  | none => rfl
  | some r =>
    exfalso
    obtain ⟨ds, u⟩ := r
    obtain ⟨hne, hall, pre, tail, hdec⟩ := regexEveryNum_sound hab
    rcases append_split_three hdec with ⟨t2, hx⟩ | ⟨p2, hy⟩ |
      ⟨k, hk0, hkP, t2, hy⟩
    · exact regexEveryNum_complete u pre t2 hne hall (hx ▸ ha)
    · apply hbv
      rw [hy]
      have hv : 'v' ∈ everyPat ds u := by
        unfold everyPat
        exact List.mem_append_left _ (List.mem_append_left _
          (List.mem_append_left _ (by decide)))
      exact List.mem_append_left _ (List.mem_append_right _ hv)
    · have hPassoc : everyPat ds u
          = str "every " ++ (ds ++ ([' '] ++ recUnitStr u)) := by
        unfold everyPat
        simp
      have hPlen : (everyPat ds u).length
          = 6 + (ds.length + (1 + (recUnitStr u).length)) := by
        rw [hPassoc]
        simp only [List.length_append, List.length_cons, List.length_nil,
          h6len]
      by_cases hk6 : k < 6
      · have hdropP : (everyPat ds u).drop k
            = (str "every ").drop k ++ (ds ++ ([' '] ++ recUnitStr u)) := by
          rw [hPassoc, List.drop_append_eq_append_drop]
          rw [show k - (str "every ").length = 0 by omega, List.drop_zero]
        rw [hdropP] at hy
        interval_cases k
        · rw [show (str "every ").drop 1 = 'v' :: str "ery " from rfl] at hy
          apply hbv
          rw [hy]
          simp
        · rw [show (str "every ").drop 2 = 'e' :: str "ry " from rfl] at hy
          rw [hy] at hb0
          simp at hb0
        · rw [show (str "every ").drop 3 = 'r' :: str "y " from rfl] at hy
          rw [hy] at hb0
          simp at hb0
        · rw [show (str "every ").drop 4 = 'y' :: str " " from rfl] at hy
          rw [hy] at hb0
          simp at hb0
        · rw [show (str "every ").drop 5 = [' '] from rfl] at hy
          rcases ds with _ | ⟨d, ds2⟩
          · exact hne rfl
          · have hd : b.get? 1 = some d := by
              rw [hy]
              rfl
            rw [hb1] at hd
            injection hd with hd
            have hdig := List.all_eq_true.mp hall d
              (List.mem_cons_self d ds2)
            rw [← hd] at hdig
            cases hdig
      · have hdropP : (everyPat ds u).drop k
            = (ds ++ ([' '] ++ recUnitStr u)).drop (k - 6) := by
          rw [hPassoc, List.drop_append_eq_append_drop]
          rw [List.drop_eq_nil_of_le (by omega), List.nil_append, h6len]
        rw [hdropP] at hy
        by_cases hj : k - 6 < ds.length
        · obtain ⟨d, rest, hdd⟩ : ∃ d rest, ds.drop (k - 6) = d :: rest := by
            rcases hddd : ds.drop (k - 6) with _ | ⟨d, rest⟩
            · have := congrArg List.length hddd
              simp at this
              omega
            · exact ⟨d, rest, rfl⟩
          rw [List.drop_append_eq_append_drop,
            show k - 6 - ds.length = 0 from by omega,
            List.drop_zero, hdd] at hy
          have hdmem : d ∈ ds :=
            List.drop_subset (k - 6) ds (hdd ▸ List.mem_cons_self d rest)
          have hdig := List.all_eq_true.mp hall d hdmem
          rw [hy] at hb0
          simp only [List.cons_append, List.head?_cons,
            Option.some.injEq] at hb0
          rw [hb0] at hdig
          cases hdig
        · by_cases hj2 : k - 6 = ds.length
          · rw [hj2, List.drop_left] at hy
            have hhd : b.get? 1 = (recUnitStr u).head? := by
              rw [hy]
              cases u <;> rfl
            rw [hb1] at hhd
            cases u <;> exact absurd hhd.symm (by decide)
          · have hm : k - 6 - ds.length - 1 < (recUnitStr u).length := by
              omega
            have hdropP2 : (ds ++ ([' '] ++ recUnitStr u)).drop (k - 6)
                = (recUnitStr u).drop (k - 6 - ds.length - 1) := by
              rw [List.drop_append_eq_append_drop,
                List.drop_eq_nil_of_le (by omega), List.nil_append]
              rw [List.drop_append_eq_append_drop,
                List.drop_eq_nil_of_le (by
                  simp only [List.length_cons, List.length_nil]
                  omega), List.nil_append]
              congr 1
            rw [hdropP2] at hy
            obtain ⟨ch, rest, hch⟩ : ∃ ch rest,
                (recUnitStr u).drop (k - 6 - ds.length - 1) = ch :: rest := by
              rcases hchh : (recUnitStr u).drop (k - 6 - ds.length - 1)
                with _ | ⟨ch, rest⟩
              · have := congrArg List.length hchh
                simp at this
                omega
              · exact ⟨ch, rest, rfl⟩
            have hchmem : ch ∈ recUnitStr u :=
              List.drop_subset _ _ (hch ▸ List.mem_cons_self ch rest)
            rw [hch] at hy
            rw [hy] at hb0
            simp only [List.cons_append, List.head?_cons,
              Option.some.injEq] at hb0
            rw [hb0] at hchmem
            revert hchmem
            cases u <;> decide

/-! ## Idempotence of the recurrence stage -/

theorem recLiteralStage_cases (c : Str) :
    recLiteralStage c = c ∨
      ∃ suf, suf ∈ [str " --repeat daily", str " --repeat weekly",
          str " --repeat monthly", str " --repeat yearly"] ∧
        recLiteralStage c = rustTrim c ++ suf ∧
        rustContains c (str "--repeat") = false := by
  unfold recLiteralStage
  split_ifs with h1 h2 h3 h4 h5 h6 h7 h8 <;>
    first
      | exact Or.inl rfl
      | (refine Or.inr ⟨_, by simp, rfl, ?_⟩
         simp_all)

theorem recLiteralStage_of_repeat {c : Str}
    (h : rustContains c (str "--repeat") = true) : recLiteralStage c = c := by
  unfold recLiteralStage
  split_ifs with h1 h2 h3 h4 h5 h6 h7 h8 <;> simp_all

theorem nonws_repeat : rustIsWhitespace ((str "--repeat").headD ' ') = false
    ∧ rustIsWhitespace ((str "--repeat").getLastD ' ') = false := by decide

theorem recFreqStep_repeat (e1 : Str) (u : RecUnit) :
    rustContains (recFreqStep e1 u) (str "--repeat") = true := by
  unfold recFreqStep
  by_cases b1 : rustContains e1 (str "--repeat") = true
  · rw [if_neg (by simp [b1])]
    exact b1
  · rw [if_pos (by simp [b1])]
    exact rustContains_append_left _ _ _
      (rustContains_append_right _ _ _ (by decide))

theorem recIntervalStep_facts (e2 ds : Str)
    (hrep : rustContains e2 (str "--repeat") = true) :
    rustContains (recIntervalStep e2 ds) (str "--repeat") = true ∧
      rustContains (recIntervalStep e2 ds) (str "--interval") = true := by
  unfold recIntervalStep
  by_cases b2 : rustContains e2 (str "--interval") = true
  · rw [if_neg (by simp [b2])]
    exact ⟨hrep, b2⟩
  · rw [if_pos (by simp [b2])]
    constructor
    · exact rustContains_append_left _ ds _
        (rustContains_trim_append_left (str " --interval ")
          (by decide) nonws_repeat.1 nonws_repeat.2 hrep)
    · exact rustContains_append_left _ ds _
        (rustContains_append_right _ _ _ (by decide))

theorem recRegexStage_facts {c : Str} (e1 : Str) {ds : Str} {u : RecUnit}
    (h : regexEveryNum c = some (ds, u)) :
    rustContains (recRegexStage c e1) (str "--repeat") = true ∧
      rustContains (recRegexStage c e1) (str "--interval") = true := by
  unfold recRegexStage
  rw [h]
  exact recIntervalStep_facts _ ds (recFreqStep_repeat e1 u)

theorem recRegexStage_blocked {c o : Str}
    (hrep : rustContains o (str "--repeat") = true)
    (hint : rustContains o (str "--interval") = true) :
    recRegexStage c o = o := by
  unfold recRegexStage
  cases hr : regexEveryNum c with
  | none => rfl
  | some r =>
    obtain ⟨ds, u⟩ := r
    dsimp only
    have hfreq : recFreqStep o u = o := by
      unfold recFreqStep
      rw [if_neg (by simp [hrep])]
    rw [hfreq]
    unfold recIntervalStep
    rw [if_neg (by simp [hint])]

theorem rec_idempotent (c : Str) :
    enhance_recurrence_command (enhance_recurrence_command c)
      = enhance_recurrence_command c := by
  by_cases hcc : rustContains c (str "calendar create") = true
  · cases hreg : regexEveryNum c with
    | none =>
      rcases recLiteralStage_cases c with hL | ⟨suf, hsufmem, hL, hnorep⟩
      · have e : enhance_recurrence_command c = c := by
          unfold enhance_recurrence_command
          rw [if_neg (by simp [hcc])]
          unfold recRegexStage
          rw [hreg]
          exact hL
        rw [e]
        exact e
      · have e : enhance_recurrence_command c = rustTrim c ++ suf := by
          unfold enhance_recurrence_command
          rw [if_neg (by simp [hcc])]
          unfold recRegexStage
          rw [hreg]
          exact hL
        rw [e]
        have hrep : rustContains (rustTrim c ++ suf) (str "--repeat")
            = true := by
          apply rustContains_append_right
          fin_cases hsufmem <;> decide
        have hrtrim : regexEveryNum (rustTrim c) = none :=
          regexEveryNum_none_infix (rustTrim_infix_rel c) hreg
        have hregO : regexEveryNum (rustTrim c ++ suf) = none := by
          apply regexEveryNum_append_none ?_ ?_ ?_ hrtrim <;>
            fin_cases hsufmem <;> decide
        unfold enhance_recurrence_command
        by_cases hcc2 : rustContains (rustTrim c ++ suf)
            (str "calendar create") = true
        · rw [if_neg (by simp [hcc2])]
          rw [recLiteralStage_of_repeat hrep]
          unfold recRegexStage
          rw [hregO]
        · rw [if_pos (by simp [hcc2])]
    | some r =>
      obtain ⟨ds, u⟩ := r
      have e : enhance_recurrence_command c
          = recRegexStage c (recLiteralStage c) := by
        unfold enhance_recurrence_command
        rw [if_neg (by simp [hcc])]
      obtain ⟨hrep, hint⟩ :=
        recRegexStage_facts (recLiteralStage c) hreg
      rw [e]
      unfold enhance_recurrence_command
      by_cases hcc2 : rustContains (recRegexStage c (recLiteralStage c))
          (str "calendar create") = true
      · rw [if_neg (by simp [hcc2])]
        rw [recLiteralStage_of_repeat hrep]
        exact recRegexStage_blocked hrep hint
      · rw [if_pos (by simp [hcc2])]
  · have e : enhance_recurrence_command c = c := by
      unfold enhance_recurrence_command
      rw [if_pos (by simp [hcc])]
    rw [e]
    exact e

/-! ## C2: numeric flag bounds in the validators -/

/-- **C2, counterexample.** The command text
`ducktape calendar create "M" 2024-05-01 14:00 15:00 "Work" --count 1000`
contains the flag `--count 1000` with `1000 > 500`, yet the
natural-language-module validator (the one the grok pipeline calls) accepts
it: that copy has no `--count` check at all.  The claim, which asserts that
the security validator errors on every `--count N` with `N > 500`, is
therefore false of the code. -/
theorem validator_count_counterexample :
    openaiFlagCapture (str "--count")
        (str "ducktape calendar create \"M\" 2024-05-01 14:00 15:00 \"Work\" --count 1000")
        = some (str "1000") ∧
      validate_calendar_command_nl
        (str "ducktape calendar create \"M\" 2024-05-01 14:00 15:00 \"Work\" --count 1000")
        = .ok () := by
  constructor
  · decide
  · rfl

/-- **C2, amended.**  Numeric flag bounds as the code enforces them:
(1) the openai-module validator rejects `--interval N` whenever the digits
after the first `--interval` parse as a `u32` value above 100;
(2) it likewise rejects `--count N` above 500;
(3) the natural-language-module validator rejects `--interval N` above 100
only for texts containing `calendar create` (via an `i32` parse), and it
never checks `--count`. -/
theorem validators_numeric_bounds :
    (∀ c ds n, openaiFlagCapture (str "--interval") c = some ds →
      parseU32 ds = some n → n > 100 →
      isErr (validate_calendar_command_openai c) = true) ∧
    (∀ c ds n, openaiFlagCapture (str "--count") c = some ds →
      parseU32 ds = some n → n > 500 →
      isErr (validate_calendar_command_openai c) = true) ∧
    (∀ c ds n, rustContains c (str "calendar create") = true →
      regexFlagCapture (str "--interval ") c = some ds →
      parseI32 ds = some n → n > 100 →
      isErr (validate_calendar_command_nl c) = true) := by
  refine ⟨?_, ?_, ?_⟩
  · intro c ds n hcap hparse hn
    unfold validate_calendar_command_openai
    cases hM : (rustContains c (str "&&") || rustContains c (str "|")
        || rustContains c (str ";") || rustContains c (str "`"))
    · simp only [hM, Bool.false_eq_true, if_false, hcap, hparse]
      simp [hn, isErr]
    · simp [hM, isErr]
  · intro c ds n hcap hparse hn
    unfold validate_calendar_command_openai
    cases hM : (rustContains c (str "&&") || rustContains c (str "|")
        || rustContains c (str ";") || rustContains c (str "`"))
    · simp only [hM, Bool.false_eq_true, if_false, hcap, hparse]
      cases hI : (match openaiFlagCapture (str "--interval") c with
        | some ds => match parseU32 ds with
          | some n => decide (n > 100)
          | none => false
        | none => false)
      · simp [hI, hn, isErr]
      · simp [hI, isErr]
    · simp [hM, isErr]
  · intro c ds n hcc hcap hparse hn
    have hIt : rustContains c (str "--interval") = true := by
      rw [rustContains_iff_infix_rel]
      exact (show (str "--interval") <+: (str "--interval ") by decide).isInfix.trans
        (regexFlagCapture_infix_rel (str "--interval ") c ds hcap)
    unfold validate_calendar_command_nl
    cases hM : (rustContains c (str "&&") || rustContains c (str "|")
        || rustContains c (str ";") || rustContains c (str "`"))
    · simp only [hM, Bool.false_eq_true, if_false, hcc, if_true, hIt, hcap, hparse]
      simp [hn, isErr]
    · simp [hM, isErr]

/-- Witness for C2 (amended), applying each conjunct at a concrete command. -/
theorem validators_numeric_bounds_witness :
    isErr (validate_calendar_command_openai
        (str "ducktape calendar create \"M\" --interval 500")) = true ∧
      isErr (validate_calendar_command_openai
        (str "ducktape calendar create \"M\" --count 1000")) = true ∧
      isErr (validate_calendar_command_nl
        (str "ducktape calendar create \"M\" --interval 500")) = true := by
  refine ⟨?_, ?_, ?_⟩
  · exact validators_numeric_bounds.1 (str "ducktape calendar create \"M\" --interval 500")
      (str "500") 500 (by decide) (by decide) (by decide)
  · exact validators_numeric_bounds.2.1 (str "ducktape calendar create \"M\" --count 1000")
      (str "1000") 1000 (by decide) (by decide) (by decide)
  · exact validators_numeric_bounds.2.2 (str "ducktape calendar create \"M\" --interval 500")
      (str "500") 500 (by decide) (by decide) (by decide) (by decide)

/-! ## C8: scenario A, the structured parse of a calendar create line -/

/-- **C8.** Parsing
`ducktape calendar create "Team Meeting" 2025-04-15 10:00 11:00 "Work"`
yields the command name `calendar`, exactly the six positionals of the
scenario in order, and an empty flag map. -/
theorem scenario_a_structured_parse :
    CommandArgs.parse
        (str "ducktape calendar create \"Team Meeting\" 2025-04-15 10:00 11:00 \"Work\"")
      = .ok ⟨str "calendar",
          [str "create", str "Team Meeting", str "2025-04-15", str "10:00",
           str "11:00", str "Work"], []⟩ := by
  rfl

/-! ## C9: scenario C, contact-name extraction -/

/-- **C9.** Contact extraction on
"Schedule a meeting with John Smith and Jane Doe tomorrow" yields exactly
`["John Smith", "Jane Doe"]`, in order, with the trailing stop word
`tomorrow` removed. -/
theorem scenario_c_contact_extraction :
    extract_contact_names
        (str "Schedule a meeting with John Smith and Jane Doe tomorrow")
      = [str "John Smith", str "Jane Doe"] := by
  rfl

/-! ## C10: unrecognized commands dispatch to success -/

theorem findHandler_eq_none {name : Str} {l : List (Str → Bool)}
    (h : ∀ p ∈ l, p name = false) : findHandler name l = none := by
  induction l with
  | nil => rfl
  | cons p rest ih =>
    rw [findHandler]
    rw [h p (List.mem_cons_self p rest)]
    simp only [Bool.false_eq_true, if_false]
    rw [ih (fun q hq => h q (List.mem_cons_of_mem p hq))]
    rfl

/-- **C10.** When no registered handler's `can_handle` accepts the command
name, the dispatcher reports the unrecognized-command outcome, and the
result it returns for it is success, not an error. -/
theorem unrecognized_command_is_success
    (exec : Nat → CommandArgs → Except Str Unit) (args : CommandArgs)
    (h : ∀ p ∈ canHandleList, p args.command = false) :
    CommandProcessor.execute exec args = .unrecognized ∧
      dispatchResult (CommandProcessor.execute exec args) = .ok () := by
  have hfind := findHandler_eq_none h
  constructor
  · unfold CommandProcessor.execute
    rw [hfind]
  · unfold CommandProcessor.execute
    rw [hfind]
    rfl

/-- Witness for C10 at the unknown command name `frobnicate`. -/
theorem unrecognized_command_is_success_witness :
    CommandProcessor.execute (fun _ _ => .ok ()) ⟨str "frobnicate", [], []⟩
        = .unrecognized ∧
      dispatchResult
          (CommandProcessor.execute (fun _ _ => .ok ())
            ⟨str "frobnicate", [], []⟩) = .ok () :=
  unrecognized_command_is_success (fun _ _ => .ok ())
    ⟨str "frobnicate", [], []⟩ (by decide)

/-! ## C5: scenario B, recurrence enhancement -/

/-- **C5, counterexample.** Applying the enhancement chain to the exact
command text of scenario B with the original input
"Standup every 2 weeks" (which contains the phrase "every 2 weeks") leaves
the command unchanged: no stage reads the original input for recurrence, so
the output does not contain `--repeat weekly --interval 2` as the claim
requires. -/
theorem scenario_b_counterexample :
    enhance_chain
        (str "ducktape calendar create \"Standup\" 2024-03-15 10:00 11:00 \"Work\"")
        (str "Standup every 2 weeks")
      = str "ducktape calendar create \"Standup\" 2024-03-15 10:00 11:00 \"Work\"" ∧
      rustContains
        (enhance_chain
          (str "ducktape calendar create \"Standup\" 2024-03-15 10:00 11:00 \"Work\"")
          (str "Standup every 2 weeks"))
        (str "--repeat weekly --interval 2") = false := by
  constructor
  · rfl
  · rfl

/-- **C5, amended.** The recurrence stage reads the command text, not the
original input: when the command text itself ends with `every 2 weeks`, the
chain appends `--repeat weekly --interval 2`. -/
theorem scenario_b_amended :
    enhance_chain
        (str "ducktape calendar create \"Standup\" 2024-03-15 10:00 11:00 \"Work\" every 2 weeks")
        (str "Standup every 2 weeks")
      = str "ducktape calendar create \"Standup\" 2024-03-15 10:00 11:00 \"Work\" every 2 weeks --repeat weekly --interval 2" ∧
      rustContains
        (enhance_chain
          (str "ducktape calendar create \"Standup\" 2024-03-15 10:00 11:00 \"Work\" every 2 weeks")
          (str "Standup every 2 weeks"))
        (str "--repeat weekly --interval 2") = true := by
  constructor
  · rfl
  · rfl

/-! ## C3: the cache-hit path of the synthesizer -/

/-- **C3, counterexample.** An input of 1001 bytes (`hello` followed by 996
NUL bytes) whose sanitized form `hello` is in the cache: the length
precondition fires first, so `parse_natural_language` returns an error, not
the cached string the claim promises for *every* input whose sanitized form
is cached. -/
theorem cache_hit_counterexample :
    (fun s => if s = str "hello" then
        some (str "ducktape calendar create \"X\" ; rm -rf /") else none)
      (sanitize_user_input (str "hello" ++ List.replicate 996 '\x00'))
      = some (str "ducktape calendar create \"X\" ; rm -rf /") ∧
    parse_natural_language (str "hello" ++ List.replicate 996 '\x00')
        (fun s => if s = str "hello" then
          some (str "ducktape calendar create \"X\" ; rm -rf /") else none)
        (.ok (str "reply"))
      = .error (str "Input too long (max 1000 characters)") := by
  constructor
  · rfl
  · rfl

/-- **C3, amended.** For every nonempty input of at most 1000 bytes whose
sanitized form is cached, `parse_natural_language` returns the cached string
exactly as stored — the enhancement stages and the security validator are
not applied to it, so an unsafe cached string is returned as a success; and
on a cache miss with a successful provider call the stored entry is the
trimmed raw reply, recorded before enhancement and validation. -/
theorem cache_hit_returns_stored :
    (∀ (input : Str) (cache : Str → Option Str) (api : Except Str Str) (r : Str),
      input ≠ [] → rustByteLen input ≤ 1000 →
      cache (sanitize_user_input input) = some r →
      parse_natural_language input cache api = .ok r) ∧
    (∀ (input : Str) (cache : Str → Option Str) (content : Str),
      input ≠ [] → rustByteLen input ≤ 1000 →
      cache (sanitize_user_input input) = none →
      parse_natural_language_store input cache (.ok content)
        = some (sanitize_user_input input, rustTrim content)) := by
  constructor
  · intro input cache api r hne hlen hhit
    unfold parse_natural_language
    have h1 : input.isEmpty = false := by
      simpa [List.isEmpty_iff] using hne
    have h2 : ¬(rustByteLen input > 1000) := by omega
    simp [h1, h2, hhit]
  · intro input cache content hne hlen hmiss
    unfold parse_natural_language_store
    have h1 : input.isEmpty = false := by
      simpa [List.isEmpty_iff] using hne
    have h2 : ¬(rustByteLen input > 1000) := by omega
    simp [h1, h2, hmiss]

/-- Witness for C3 (amended): a cached reply containing a `;` and an
out-of-range `--interval` is returned as a success, bypassing the
validator; and a cache miss stores the raw reply. -/
theorem cache_hit_returns_stored_witness :
    parse_natural_language (str "hi")
        (fun s => if s = str "hi" then
          some (str "ducktape calendar create \"X\" ; rm --interval 999") else none)
        (.error (str "no api"))
      = .ok (str "ducktape calendar create \"X\" ; rm --interval 999") ∧
      parse_natural_language_store (str "hi") (fun _ => none)
          (.ok (str " raw reply "))
        = some (str "hi", str "raw reply") := by
  constructor
  · exact cache_hit_returns_stored.1 (str "hi") _ _ _ (by decide) (by decide) (by rfl)
  · exact cache_hit_returns_stored.2 (str "hi") _ _ (by decide) (by decide) (by rfl)

/-! ## C4: surfacing of provider errors -/

/-- **C4, counterexample.** For the input `create an event` (detected as
event-creation intent) a failed provider call is not surfaced:
`parse_input` replaces it with a locally fabricated command string returned
as a success. -/
theorem provider_error_fallback_counterexample :
    parse_input (str "create an event") true (fun _ => none)
        (.error (str "API request failed"))
      = .ok (.CommandString
          (str "ducktape calendar create \"Event\" today 00:00 01:00 \"Calendar\"")) := by
  rfl

/-- **C4, amended.** Provider errors are surfaced only on the non-event
path: when the input is not detected as event-creation intent (and reaches
the provider: key set, nonempty, within the length bound, not cached), a
provider failure is returned to the caller as that error; on the
event-creation path the failure is replaced by a fallback command. -/
theorem provider_error_surfaced
    (input : Str) (cache : Str → Option Str) (e : Str)
    (hevent : grokIsEventCreation input = false)
    (hne : input ≠ []) (hlen : rustByteLen input ≤ 1000)
    (hmiss : cache (sanitize_user_input input) = none) :
    parse_input input true cache (.error e) = .error e ∧
    (∀ input' cache',
      grokIsEventCreation input' = true → input' ≠ [] →
      rustByteLen input' ≤ 1000 →
      cache' (sanitize_user_input input') = none →
      parse_input input' true cache' (.error e)
        = .ok (.CommandString (sanitize_nlp_command input'))) := by
  have hplain : ∀ (inp : Str) (ca : Str → Option Str), inp ≠ [] →
      rustByteLen inp ≤ 1000 → ca (sanitize_user_input inp) = none →
      parse_natural_language inp ca (.error e) = .error e := by
    intro inp ca hne' hlen' hmiss'
    unfold parse_natural_language
    have h1 : inp.isEmpty = false := by simpa [List.isEmpty_iff] using hne'
    have h2 : ¬(rustByteLen inp > 1000) := by omega
    simp [h1, h2, hmiss']
  constructor
  · unfold parse_input
    rw [hevent]
    simp [hplain input cache hne hlen hmiss]
  · intro input' cache' hevent' hne' hlen' hmiss'
    unfold parse_input
    rw [hevent']
    simp [hplain input' cache' hne' hlen' hmiss']

/-- Witness for C4 (amended) at the inputs `hello world` (not event
creation) and `create an event` (event creation). -/
theorem provider_error_surfaced_witness :
    parse_input (str "hello world") true (fun _ => none)
        (.error (str "API request failed")) = .error (str "API request failed") ∧
      parse_input (str "create an event") true (fun _ => none)
          (.error (str "API request failed"))
        = .ok (.CommandString (sanitize_nlp_command (str "create an event"))) := by
  have h := provider_error_surfaced (str "hello world") (fun _ => none)
    (str "API request failed") (by rfl) (by decide) (by decide) (by rfl)
  exact ⟨h.1, h.2 (str "create an event") (fun _ => none) (by rfl) (by decide)
    (by decide) (by rfl)⟩

/-! ## Idempotence of the end-time repair stage -/

theorem digit_not_ws {c : Char} (h : isDigitC c = true) :
    rustIsWhitespace c = false := by
  simp only [isDigitC, Bool.and_eq_true, decide_eq_true_eq] at h
  obtain ⟨h1, h2⟩ := h
  have n1 : 48 ≤ c.toNat := h1
  have n2 : c.toNat ≤ 57 := h2
  have hc : c = Char.ofNat c.toNat := (Char.ofNat_toNat c).symm
  set n := c.toNat with hdef
  interval_cases n <;> rw [hc] <;> decide

theorem parseWs1_space (l : Str) (hl : rustIsWhitespace (l.headD 'x') = false) :
    parseWs1 (' ' :: l) = some l := by
  unfold parseWs1
  rw [if_pos (show rustIsWhitespace ((' ' :: l).headD 'x') = true from rfl)]
  rw [List.dropWhile_cons,
    if_pos (show rustIsWhitespace ' ' = true from rfl)]
  cases l with
  | nil => rfl
  | cons x t =>
    have hx : rustIsWhitespace x = false := hl
    rw [List.dropWhile_cons, if_neg (by simp [hx])]

theorem isTimeShape_cases {t : Str} (ht : isTimeShape t = true) :
    (∃ a b c d, t = [a, b, ':', c, d] ∧ isDigitC a = true ∧ isDigitC b = true
        ∧ isDigitC c = true ∧ isDigitC d = true)
      ∨ (∃ a c d, t = [a, ':', c, d] ∧ isDigitC a = true ∧ isDigitC c = true
        ∧ isDigitC d = true) := by
  unfold isTimeShape at ht
  split at ht
  · left
    simp only [Bool.and_eq_true] at ht
    exact ⟨_, _, _, _, rfl, ht.1.1.1, ht.1.1.2, ht.1.2, ht.2⟩
  · right
    simp only [Bool.and_eq_true] at ht
    exact ⟨_, _, _, rfl, ht.1.1, ht.1.2, ht.2⟩
  · exact absurd ht (by simp)

theorem isDateShape_cases {t : Str} (ht : isDateShape t = true) :
    ∃ a b c d e f g h, t = [a, b, c, d, '-', e, f, '-', g, h]
      ∧ isDigitC a = true ∧ isDigitC b = true ∧ isDigitC c = true
      ∧ isDigitC d = true ∧ isDigitC e = true ∧ isDigitC f = true
      ∧ isDigitC g = true ∧ isDigitC h = true := by
  unfold isDateShape at ht
  split at ht
  · simp only [Bool.and_eq_true] at ht
    exact ⟨_, _, _, _, _, _, _, _, rfl, ht.1.1.1.1.1.1.1, ht.1.1.1.1.1.1.2,
      ht.1.1.1.1.1.2, ht.1.1.1.1.2, ht.1.1.1.2, ht.1.1.2, ht.1.2, ht.2⟩
  · exact absurd ht (by simp)

theorem parseTime_eval (t rest : Str) (ht : isTimeShape t = true) :
    parseTime (t ++ rest) = some (t, rest) := by
  rcases isTimeShape_cases ht with
    ⟨a, b, c, d, rfl, ha, hb, hc, hd⟩ | ⟨a, c, d, rfl, ha, hc, hd⟩
  · have hb' : ¬(b = ':') := by
      intro h
      rw [h] at hb
      exact absurd hb (by decide)
    simp only [List.cons_append, List.nil_append]
    unfold parseTime
    dsimp only
    rw [if_neg hb']
    show (if (isDigitC a && isDigitC b && isDigitC c && isDigitC d) = true then
        some ([a, b, ':', c, d], rest)
      else none) = some ([a, b, ':', c, d], rest)
    rw [if_pos (by simp [ha, hb, hc, hd])]
  · simp only [List.cons_append, List.nil_append]
    unfold parseTime
    dsimp only
    rw [if_pos (show ':' = ':' from rfl)]
    show (if (isDigitC a && isDigitC c && isDigitC d) = true then
        some ([a, ':', c, d], rest)
      else none) = some ([a, ':', c, d], rest)
    rw [if_pos (by simp [ha, hc, hd])]

theorem parseDate_eval (t rest : Str) (ht : isDateShape t = true) :
    parseDate (t ++ rest) = some (t, rest) := by
  obtain ⟨a, b, c, d, e, f, g, h, rfl, ha, hb, hc, hd, he, hf, hg, hh⟩ :=
    isDateShape_cases ht
  simp only [List.cons_append, List.nil_append]
  rw [show parseDate (a :: b :: c :: d :: '-' :: e :: f :: '-' :: g :: h :: rest)
      = if (isDigitC a && isDigitC b && isDigitC c && isDigitC d && isDigitC e
          && isDigitC f && isDigitC g && isDigitC h) = true then
          some ([a, b, c, d, '-', e, f, '-', g, h], rest)
        else none from rfl]
  rw [if_pos (by simp [ha, hb, hc, hd, he, hf, hg, hh])]

theorem parseDate_sound {l t r : Str} (h : parseDate l = some (t, r)) :
    l = t ++ r ∧ isDateShape t = true := by
  unfold parseDate at h
  split at h
  · split at h
    · injection h with h'
      injection h' with h1 h2
      subst h1
      subst h2
      refine ⟨by simp, ?_⟩
      simp only [isDateShape]
      assumption
    · exact absurd h (by simp)
  · exact absurd h (by simp)

theorem parseTime_sound {l t r : Str} (h : parseTime l = some (t, r)) :
    l = t ++ r ∧ isTimeShape t = true := by
  unfold parseTime at h
  split at h
  · split at h
    · rename_i hcol
      subst hcol
      split at h
      · split at h
        · injection h with h'
          injection h' with h1 h2
          subst h1
          subst h2
          refine ⟨by simp, ?_⟩
          simp only [isTimeShape]
          assumption
        · exact absurd h (by simp)
      · exact absurd h (by simp)
    · split at h
      · split at h
        · injection h with h'
          injection h' with h1 h2
          subst h1
          subst h2
          refine ⟨by simp, ?_⟩
          simp only [isTimeShape]
          assumption
        · exact absurd h (by simp)
      · exact absurd h (by simp)
  · exact absurd h (by simp)

theorem parseDate_after_time_none {t w : Str} (ht : isTimeShape t = true) :
    parseDate (t ++ ' ' :: w) = none := by
  cases hpd : parseDate (t ++ ' ' :: w) with
  | none => rfl
  | some p =>
    obtain ⟨d, r⟩ := p
    obtain ⟨heq, hshape⟩ := parseDate_sound hpd
    obtain ⟨a2, b2, c2, d2, e2, f2, g2, h2, rfl, ha2, hb2, -, -, -, -, -, -⟩ :=
      isDateShape_cases hshape
    rcases isTimeShape_cases ht with
      ⟨a, b, c, d, rfl, ha, hb, hc, hd⟩ | ⟨a, c, d, rfl, ha, hc, hd⟩
    · simp only [List.cons_append, List.nil_append, List.cons.injEq] at heq
      have hdm := heq.2.2.2.2.1
      rw [hdm] at hd
      exact absurd hd (by decide)
    · simp only [List.cons_append, List.nil_append, List.cons.injEq] at heq
      have hdm := heq.2.2.2.2.1
      exact absurd hdm (by decide)

theorem quote_not_mem_title (r2 : Str) :
    '"' ∉ r2.takeWhile (fun c => !(c = '"')) := by
  intro hmem
  have hall := all_takeWhile (fun c => !(c = '"')) r2
  rw [List.all_eq_true] at hall
  have hx := hall _ hmem
  simp at hx

theorem title_ne_nil_of_not_isEmpty {r2 : Str}
    (h : ¬((r2.takeWhile (fun c => !(c = '"'))).isEmpty = true)) :
    r2.takeWhile (fun c => !(c = '"')) ≠ [] := by
  intro he
  exact h (by rw [he]; rfl)

theorem fixTail_sound {l : Str} {caps : FixCaps} (h : fixTail l = some caps) :
    caps.title ≠ [] ∧ '"' ∉ caps.title ∧ isDateShape caps.date = true
      ∧ isTimeShape caps.start = true ∧ isTimeShape caps.endt = true := by
  unfold fixTail at h
  split at h
  · exact absurd h (by simp)
  · split at h
    · split at h
      · split at h
        · exact absurd h (by simp)
        · split at h
          · split at h
            · split at h
              · exact absurd h (by simp)
              · split at h
                · exact absurd h (by simp)
                · split at h
                  · exact absurd h (by simp)
                  · split at h
                    · exact absurd h (by simp)
                    · split at h
                      · exact absurd h (by simp)
                      · split at h
                        · split at h
                          · split at h
                            · injection h with h'
                              subst h'
                              exact ⟨title_ne_nil_of_not_isEmpty
                                  (by assumption),
                                quote_not_mem_title _,
                                (parseDate_sound (by assumption)).2,
                                (parseTime_sound (by assumption)).2,
                                (parseTime_sound (by assumption)).2⟩
                            · split at h
                              · injection h with h'
                                subst h'
                                exact ⟨title_ne_nil_of_not_isEmpty
                                    (by assumption),
                                  quote_not_mem_title _,
                                  (parseDate_sound (by assumption)).2,
                                  (parseTime_sound (by assumption)).2,
                                  (parseTime_sound (by assumption)).2⟩
                              · exact absurd h (by simp)
                          · split at h
                            · injection h with h'
                              subst h'
                              exact ⟨title_ne_nil_of_not_isEmpty
                                  (by assumption),
                                quote_not_mem_title _,
                                (parseDate_sound (by assumption)).2,
                                (parseTime_sound (by assumption)).2,
                                (parseTime_sound (by assumption)).2⟩
                            · exact absurd h (by simp)
                        · split at h
                          · injection h with h'
                            subst h'
                            exact ⟨title_ne_nil_of_not_isEmpty
                                (by assumption),
                              quote_not_mem_title _,
                              (parseDate_sound (by assumption)).2,
                              (parseTime_sound (by assumption)).2,
                              (parseTime_sound (by assumption)).2⟩
                          · exact absurd h (by simp)
            · exact absurd h (by simp)
          · exact absurd h (by simp)
      · exact absurd h (by simp)
    · exact absurd h (by simp)

theorem fixScan_cons (x : Char) (t : Str) :
    fixScan (x :: t)
      = if (str "calendar create").isPrefixOf (x :: t) then
          (match fixTail ((x :: t).drop 15) with
            | some caps => some caps
            | none => fixScan t)
        else fixScan t := rfl

theorem fixScan_sound {c : Str} {caps : FixCaps} (h : fixScan c = some caps) :
    caps.title ≠ [] ∧ '"' ∉ caps.title ∧ isDateShape caps.date = true
      ∧ isTimeShape caps.start = true ∧ isTimeShape caps.endt = true := by
  induction c with
  | nil => exact Option.noConfusion h
  | cons x t ih =>
    rw [fixScan_cons] at h
    split at h
    · split at h
      · rename_i heq
        injection h with h'
        subst h'
        exact fixTail_sound heq
      · exact ih h
    · exact ih h

theorem str_space_append (Z : Str) : str " " ++ Z = ' ' :: Z := rfl

theorem str_quote_space_append (Z : Str) :
    str "\" " ++ Z = '"' :: ' ' :: Z := rfl

theorem dateShape_head {t : Str} (h : isDateShape t = true) :
    ∃ a t', t = a :: t' ∧ rustIsWhitespace a = false := by
  obtain ⟨a, b, c, d, e, f, g, h2, rfl, ha, -, -, -, -, -, -, -⟩ :=
    isDateShape_cases h
  exact ⟨a, _, rfl, digit_not_ws ha⟩

theorem timeShape_head {t : Str} (h : isTimeShape t = true) :
    ∃ a t', t = a :: t' ∧ rustIsWhitespace a = false := by
  rcases isTimeShape_cases h with
    ⟨a, b, c, d, rfl, ha, -, -, -⟩ | ⟨a, c, d, rfl, ha, -, -⟩
  · exact ⟨a, _, rfl, digit_not_ws ha⟩
  · exact ⟨a, _, rfl, digit_not_ws ha⟩

theorem fixTail_rebuilt (title date start endt w : Str)
    (ht : title ≠ []) (hq : '"' ∉ title) (hd : isDateShape date = true)
    (hs : isTimeShape start = true) (he : isTimeShape endt = true) :
    fixTail (' ' :: '"' :: (title ++ '"' :: ' ' :: (date ++ ' ' :: (start
      ++ ' ' :: (endt ++ ' ' :: w)))))
      = some ⟨title, date, start, none, endt⟩ := by
  obtain ⟨d1, dt, hdc, hd1⟩ := dateShape_head hd
  obtain ⟨s1, st, hsc, hs1⟩ := timeShape_head hs
  obtain ⟨e1, et, hec, he1⟩ := timeShape_head he
  have htall : ∀ x ∈ title, (fun c => !(c = '"')) x = true := by
    intro x hx
    simp only [Bool.not_eq_true', decide_eq_false_iff_not]
    exact fun hxe => hq (hxe ▸ hx)
  unfold fixTail
  rw [parseWs1_space ('"' :: (title ++ '"' :: ' ' :: (date ++ ' ' :: (start
    ++ ' ' :: (endt ++ ' ' :: w))))) rfl]
  dsimp only
  rw [if_pos (show '"' = '"' from rfl)]
  rw [takeWhile_append_cons '"' _ htall (by decide)]
  rw [dropWhile_append_cons '"' _ htall (by decide)]
  rw [if_neg (show ¬(title.isEmpty = true) from by
    simp only [List.isEmpty_iff]
    exact ht)]
  dsimp only
  rw [if_pos (show '"' = '"' from rfl)]
  rw [parseWs1_space (date ++ ' ' :: (start ++ ' ' :: (endt ++ ' ' :: w)))
    (by rw [hdc]; exact hd1)]
  dsimp only
  rw [parseDate_eval _ _ hd]
  dsimp only
  rw [parseWs1_space (start ++ ' ' :: (endt ++ ' ' :: w))
    (by rw [hsc]; exact hs1)]
  dsimp only
  rw [parseTime_eval _ _ hs]
  dsimp only
  rw [parseWs1_space (endt ++ ' ' :: w) (by rw [hec]; exact he1)]
  dsimp only
  rw [parseDate_after_time_none he]
  dsimp only
  rw [parseTime_eval _ _ he]

theorem not_prefix_calcreate {x : Char} (t : Str) (hx : ('c' == x) = false) :
    ((str "calendar create").isPrefixOf (x :: t)) = false := by
  rw [show str "calendar create" = 'c' :: str "alendar create" from rfl]
  exact isPrefixOf_cons_ne _ _ hx

theorem not_prefix_ck (t : Str) :
    ((str "calendar create").isPrefixOf ('c' :: 'k' :: t)) = false := by
  rw [show str "calendar create" = 'c' :: 'a' :: str "lendar create" from rfl]
  show (('c' == 'c') && (('a' :: str "lendar create").isPrefixOf ('k' :: t)))
    = false
  rw [isPrefixOf_cons_ne _ _ (show ('a' == 'k') = false from by decide)]
  simp

theorem fixScan_rebuilt (title date start endt w : Str)
    (ht : title ≠ []) (hq : '"' ∉ title) (hd : isDateShape date = true)
    (hs : isTimeShape start = true) (he : isTimeShape endt = true) :
    fixScan (str "ducktape calendar create \"" ++ title ++ str "\" " ++ date
      ++ str " " ++ start ++ str " " ++ endt ++ str " " ++ w)
      = some ⟨title, date, start, none, endt⟩ := by
  simp only [List.append_assoc]
  simp only [str_space_append, str_quote_space_append]
  set R := title ++ '"' :: ' ' :: (date ++ ' ' :: (start ++ ' ' :: (endt
    ++ ' ' :: w))) with hR
  rw [show str "ducktape calendar create \"" ++ R
    = 'd' :: 'u' :: 'c' :: 'k' :: 't' :: 'a' :: 'p' :: 'e' :: ' '
      :: (str "calendar create" ++ (' ' :: '"' :: R)) from rfl]
  rw [fixScan_cons, not_prefix_calcreate _ (by decide), if_neg (by simp)]
  rw [fixScan_cons, not_prefix_calcreate _ (by decide), if_neg (by simp)]
  rw [fixScan_cons, not_prefix_ck _, if_neg (by simp)]
  rw [fixScan_cons, not_prefix_calcreate _ (by decide), if_neg (by simp)]
  rw [fixScan_cons, not_prefix_calcreate _ (by decide), if_neg (by simp)]
  rw [fixScan_cons, not_prefix_calcreate _ (by decide), if_neg (by simp)]
  rw [fixScan_cons, not_prefix_calcreate _ (by decide), if_neg (by simp)]
  rw [fixScan_cons, not_prefix_calcreate _ (by decide), if_neg (by simp)]
  rw [fixScan_cons, not_prefix_calcreate _ (by decide), if_neg (by simp)]
  rw [show str "calendar create" ++ (' ' :: '"' :: R)
    = 'c' :: (str "alendar create" ++ (' ' :: '"' :: R)) from rfl]
  have hpre : ((str "calendar create").isPrefixOf
      ('c' :: (str "alendar create" ++ (' ' :: '"' :: R)))) = true :=
    isPrefixOf_append_self (str "calendar create") (' ' :: '"' :: R)
  rw [fixScan_cons, hpre, if_pos rfl]
  rw [show ('c' :: (str "alendar create" ++ (' ' :: '"' :: R))).drop 15
    = ' ' :: '"' :: R from rfl]
  rw [hR]
  rw [fixTail_rebuilt title date start endt w ht hq hd hs he]

theorem fix_idempotent (c : Str) :
    fix_calendar_end_time_format (fix_calendar_end_time_format c)
      = fix_calendar_end_time_format c := by
  by_cases hcc : rustContains c (str "calendar create") = true
  · cases hsc : fixScan c with
    | none =>
      have e : fix_calendar_end_time_format c = c := by
        unfold fix_calendar_end_time_format
        rw [if_neg (by simp [hcc]), hsc]
      rw [e]
      exact e
    | some caps =>
      obtain ⟨title, date, start, stray, endt⟩ := caps
      cases stray with
      | none =>
        have e : fix_calendar_end_time_format c = c := by
          unfold fix_calendar_end_time_format
          rw [if_neg (by simp [hcc]), hsc]
        rw [e]
        exact e
      | some d2 =>
        obtain ⟨ht, hq, hd, hs, he⟩ := fixScan_sound hsc
        have e : fix_calendar_end_time_format c
            = str "ducktape calendar create \"" ++ title ++ str "\" " ++ date
              ++ str " " ++ start ++ str " " ++ endt ++ str " "
              ++ rustTrim (match afterFirst endt c with
                  | some a => a
                  | none => []) := by
          unfold fix_calendar_end_time_format
          rw [if_neg (by simp [hcc]), hsc]
        rw [e]
        have hcont : rustContains (str "ducktape calendar create \"" ++ title
            ++ str "\" " ++ date ++ str " " ++ start ++ str " " ++ endt
            ++ str " " ++ rustTrim (match afterFirst endt c with
                | some a => a
                | none => [])) (str "calendar create") = true :=
          rustContains_append_left _ _ _ (rustContains_append_left _ _ _
            (rustContains_append_left _ _ _ (rustContains_append_left _ _ _
              (rustContains_append_left _ _ _ (rustContains_append_left _ _ _
                (rustContains_append_left _ _ _ (rustContains_append_left _ _ _
                  (rustContains_append_left _ _ _ (by decide)))))))))
        unfold fix_calendar_end_time_format
        rw [if_neg (by rw [hcont]; simp)]
        rw [fixScan_rebuilt title date start endt _ ht hq hd hs he]
  · have e : fix_calendar_end_time_format c = c := by
      unfold fix_calendar_end_time_format
      rw [if_pos (by simp [hcc])]
    rw [e]
    exact e

/-! ## C6: idempotence of the enhancement stages -/

/-- **C6, counterexample.** Re-applying the contact/email stage to its own
output is not a no-op: on the command
`ducktape calendar create "X" --email "Bob" --email "Carl"` (with empty
original input) the first application's cleanup removes only the first
`--email "..."` flag whose value is not an email address, so the second
application removes the other one and the outputs differ.  The composed
chain inherits the same failure on this input. -/
theorem contacts_stage_not_idempotent :
    enhance_command_with_contacts
        (enhance_command_with_contacts
          (str "ducktape calendar create \"X\" --email \"Bob\" --email \"Carl\"")
          (str "")) (str "")
      ≠ enhance_command_with_contacts
          (str "ducktape calendar create \"X\" --email \"Bob\" --email \"Carl\"")
          (str "")
    ∧ enhance_chain
        (enhance_chain
          (str "ducktape calendar create \"X\" --email \"Bob\" --email \"Carl\"")
          (str "")) (str "")
      ≠ enhance_chain
          (str "ducktape calendar create \"X\" --email \"Bob\" --email \"Carl\"")
          (str "") := by
  constructor
  · decide
  · decide

/-- **C6, amended.** Three of the four enhancement stages are idempotent for
every command text and input: the recurrence stage, the meeting-link (zoom)
stage, and the end-time repair stage.  The contact/email stage is not
idempotent, and neither is the composed chain: its `--email "..."` cleanup
removes only the first non-address flag per application. -/
theorem enhancement_stage_idempotence :
    (∀ c, enhance_recurrence_command (enhance_recurrence_command c)
        = enhance_recurrence_command c)
      ∧ (∀ c i, enhance_command_with_zoom (enhance_command_with_zoom c i) i
        = enhance_command_with_zoom c i)
      ∧ (∀ c, fix_calendar_end_time_format (fix_calendar_end_time_format c)
        = fix_calendar_end_time_format c)
      ∧ ¬(∀ c i, enhance_command_with_contacts
            (enhance_command_with_contacts c i) i
          = enhance_command_with_contacts c i)
      ∧ ¬(∀ c i, enhance_chain (enhance_chain c i) i = enhance_chain c i) := by
  refine ⟨rec_idempotent, zoom_idempotent, fix_idempotent, ?_, ?_⟩
  · intro hall
    exact absurd
      (hall (str "ducktape calendar create \"X\" --email \"Bob\" --email \"Carl\"")
        (str "")) (by decide)
  · intro hall
    exact absurd
      (hall (str "ducktape calendar create \"X\" --email \"Bob\" --email \"Carl\"")
        (str "")) (by decide)

/-! ## C7: round-trip tokenization -/

theorem shellRun_normal_quote (t : Str) (cur : Option Str) (acc : List Str) :
    shellRun ('\'' :: t) SWState.normal cur acc
      = shellRun t SWState.single (some (cur.getD [])) acc := by
  rw [shellRun.eq_def]
  dsimp only
  rw [if_neg (show ¬(rustIsWhitespace '\'' = true) from by decide)]
  rw [if_neg (show ¬('\'' = '\\') from by decide)]
  rw [if_neg (show ¬('\'' = '"') from by decide)]
  rw [if_pos (show '\'' = '\'' from rfl)]

theorem shellRun_normal_space (t : Str) (tok : Str) (acc : List Str) :
    shellRun (' ' :: t) SWState.normal (some tok) acc
      = shellRun t SWState.normal none (acc ++ [tok]) := by
  rw [shellRun.eq_def]
  dsimp only
  rw [if_pos (show rustIsWhitespace ' ' = true from rfl)]

theorem shellRun_single_consume (t : Str) :
    '\'' ∉ t → ∀ (rest cur : Str) (acc : List Str),
    shellRun (t ++ '\'' :: rest) SWState.single (some cur) acc
      = shellRun rest SWState.normal (some (cur ++ t)) acc := by
  induction t with
  | nil =>
    intro h rest cur acc
    rw [List.append_nil, List.nil_append]
    rw [shellRun.eq_def]
    dsimp only
    rw [if_pos (show '\'' = '\'' from rfl)]
  | cons x xs ih =>
    intro h rest cur acc
    have hx : ¬(x = '\'') := by
      intro he
      subst he
      exact h (List.mem_cons_self _ _)
    rw [List.cons_append]
    rw [shellRun.eq_def]
    dsimp only [Option.getD]
    rw [if_neg hx]
    rw [ih (fun hm => h (List.mem_cons_of_mem x hm)) rest (cur ++ [x]) acc]
    simp

theorem shellRun_join (ts : List Str) :
    (∀ t ∈ ts, '\'' ∉ t) → ∀ acc : List Str,
    shellRun (join_with_quoting ts) SWState.normal none acc
      = .ok (acc ++ ts) := by
  induction ts with
  | nil =>
    intro h acc
    show Except.ok (acc ++ []) = .ok (acc ++ [])
    rfl
  | cons t ts' ih =>
    intro h acc
    have ht : '\'' ∉ t := h t (List.mem_cons_self _ _)
    cases ts' with
    | nil =>
      show shellRun ('\'' :: (t ++ ['\''])) SWState.normal none acc
        = .ok (acc ++ [t])
      rw [shellRun_normal_quote]
      dsimp only [Option.getD]
      rw [show t ++ ['\''] = t ++ '\'' :: ([] : Str) from rfl]
      rw [shellRun_single_consume t ht [] [] acc]
      rw [List.nil_append]
      rfl
    | cons u ts'' =>
      show shellRun (('\'' :: (t ++ ['\''])) ++ ' '
          :: join_with_quoting (u :: ts'')) SWState.normal none acc
        = .ok (acc ++ t :: u :: ts'')
      rw [show ('\'' :: (t ++ ['\''])) ++ ' ' :: join_with_quoting (u :: ts'')
        = '\'' :: (t ++ '\'' :: ' ' :: join_with_quoting (u :: ts''))
        from by simp [List.cons_append, List.append_assoc]]
      rw [shellRun_normal_quote]
      dsimp only [Option.getD]
      rw [shellRun_single_consume t ht
        (' ' :: join_with_quoting (u :: ts'')) [] acc]
      rw [List.nil_append]
      rw [shellRun_normal_space]
      rw [ih (fun t' ht' => h t' (List.mem_cons_of_mem t ht')) (acc ++ [t])]
      simp

theorem shell_split_join (ts : List Str) (h : ∀ t ∈ ts, '\'' ∉ t) :
    shell_split (join_with_quoting ts) = .ok ts := by
  unfold shell_split
  rw [shellRun_join ts h []]
  rw [List.nil_append]

theorem mem_dropLast_cons {x tok : Str} {rest : List Str}
    (hx : x ∈ rest.dropLast) : x ∈ (tok :: rest).dropLast := by
  cases rest with
  | nil => simp at hx
  | cons r0 rest' =>
    rw [show (tok :: r0 :: rest').dropLast
      = tok :: (r0 :: rest').dropLast from rfl]
    exact List.mem_cons_of_mem _ hx

theorem postprocessGo_id : ∀ (N : Nat) (ts : List Str), ts.length ≤ N →
    str "--contacts" ∉ ts.dropLast → postprocessGo 0 ts = ts := by
  intro N
  induction N with
  | zero =>
    intro ts hlen hc
    cases ts with
    | nil => rfl
    | cons tok rest => simp at hlen
  | succ N ih =>
    intro ts hlen hc
    cases ts with
    | nil => rfl
    | cons tok rest =>
      by_cases hc1 : tok = str "--contacts" ∧ rest ≠ []
      · exfalso
        obtain ⟨htok, hrest⟩ := hc1
        rcases rest with _ | ⟨r0, rest'⟩
        · exact hrest rfl
        · apply hc
          rw [show (tok :: r0 :: rest').dropLast
            = tok :: (r0 :: rest').dropLast from rfl]
          rw [htok]
          exact List.mem_cons_self _ _
      · by_cases hc2 : rustStartsWith tok (str "--") = true
            ∧ (tok.drop 2 = str "location" ∨ tok.drop 2 = str "notes"
              ∨ tok.drop 2 = str "email" ∨ tok.drop 2 = str "contacts")
            ∧ rest ≠ []
        · rcases rest with _ | ⟨r0, rest'⟩
          · exact absurd rfl hc2.2.2
          · have hc' : str "--contacts" ∉ rest'.dropLast := fun hmem =>
              hc (mem_dropLast_cons (mem_dropLast_cons hmem))
            have hlen' : rest'.length ≤ N := by
              simp only [List.length_cons] at hlen
              omega
            simp only [postprocessGo]
            rw [if_neg hc1, if_pos hc2]
            rw [ih rest' hlen' hc']
            rfl
        · have hc' : str "--contacts" ∉ rest.dropLast := fun hmem =>
            hc (mem_dropLast_cons hmem)
          have hlen' : rest.length ≤ N := by
            simp only [List.length_cons] at hlen
            omega
          simp only [postprocessGo]
          rw [if_neg hc1, if_neg hc2]
          rw [ih rest hlen' hc']

/-- **C7, amended.** For every token sequence whose tokens contain no
single-quote character and that has no `--contacts` token before the last
position, joining with shell-style quoting and re-tokenizing (including the
flag post-processing pass) returns exactly the original tokens.  (A
non-final `--contacts` breaks the round trip: its value is re-quoted, and a
following `--` token is dropped outright.) -/
theorem tokenize_roundtrip (ts : List Str)
    (hq : ∀ t ∈ ts, '\'' ∉ t)
    (hc : str "--contacts" ∉ ts.dropLast) :
    tokenize_input (join_with_quoting ts) = .ok ts := by
  unfold tokenize_input
  rw [shell_split_join ts hq]
  exact congrArg Except.ok (postprocessGo_id ts.length ts le_rfl hc)

theorem tokenize_roundtrip_witness :
    ((∀ t ∈ [str "hello", str "--location", str "Room 5"], '\'' ∉ t)
      ∧ str "--contacts"
        ∉ ([str "hello", str "--location", str "Room 5"]).dropLast)
    ∧ tokenize_input (join_with_quoting
        [str "hello", str "--location", str "Room 5"])
      = .ok [str "hello", str "--location", str "Room 5"] :=
  ⟨⟨by decide, by decide⟩, tokenize_roundtrip _ (by decide) (by decide)⟩

/-- **C7, counterexample.** The token pair `["--contacts", "a"]` has no
embedded quote characters, yet the flag post-processing pass re-quotes the
value after `--contacts`: tokenizing the joined form returns
`["--contacts", "\"a\""]`, not the original pair. -/
theorem tokenize_roundtrip_counterexample :
    tokenize_input (join_with_quoting [str "--contacts", str "a"])
      = .ok [str "--contacts", str "\"a\""]
    ∧ (str "\"a\"" : Str) ≠ str "a" := by
  constructor
  · rfl
  · decide

end Ducktape
